import Mathlib

/-!
Verification of the GEDCOM-to-relational conversion pipeline.

This file is a shallow embedding, in Lean 4, of the core of the `gedcom`
crate: the tag vocabulary (`src/models/gedcom/line.rs`), the line-grammar
parser built from nom combinators (`src/parser.rs` and `src/parser/*.rs`),
the tree builder (`src/models/gedcom/tree.rs`), and the relational mapper
(`src/models/relation/*.rs`, `src/lib.rs`).  Rust `u8`/`u32` integers are
modelled as `Nat` (the parser only ever produces levels `0..=99`, and all
identifier arithmetic stays far below any overflow boundary, so wrap-around
is unreachable on the modelled inputs); fallible Rust code returns
`Option`/`Except`; a Rust panic is modelled as `Option.none` at the point
where it would occur and is propagated outward.
-/

namespace Gedcom

/-- The tag vocabulary, one constructor per variant of the Rust enum
`GedcomLineTag`, plus the data-carrying `Custom` variant. -/
inductive GedcomLineTag : Type where
  | Abbreviation | Address | Address1 | Address2 | Adoption
  | AncestralFileNumber | Age | Agency | Alias | Ancestors
  | AncestorInterest | Annulment | Associates | Author | BaptismLds
  | Baptism | BarMitzvah | BasMitzvah | Birth | Blessing
  | Burial | CallNumber | Caste | Cause | Census
  | Change | Character | Child | Christening | AdultChristening
  | City | Concatenation | Confirmation | ConfirmationLds | Continued
  | Copyright | Corporate | Cremation | Country | Data
  | Date | Death | Descendants | DescendantInterest | Destination
  | Divorce | DivorceFiled | PhysicalDescription | Education | Email
  | Emigration | Endowment | Engagement | Event | Fact
  | Family | FamilyChild | FamilyFile | FamilySpouse | Facsimile
  | FirstCommunion | File | Format | Phonetic | Gedcom
  | GivenName | Graduation | Header | Husband | IdentityNumber
  | Immigration | Individual | Language | Latitude | Longitude
  | Map | MarriageBanns | MarriageContract | MarriageLicense | Marriage
  | MarriageSettlement | Media | Name | Nationality | Naturalisation
  | ChildrenCount | Nickname | MarriageCount | Note | NamePrefix
  | NameSuffix | Object | Occupation | Ordinance | Ordination
  | Page | Pedigree | Phone | Place | PostalCode
  | Probate | Property | Publication | QualityOfData | Reference
  | Relationship | Religion | Repository | Residence | Restriction
  | Retirement | RecordFileNumber | RecordIdNumber | Role | Romanised
  | Sex | SealingChild | SealingSpouse | Source | SurnamePrefix
  | SocialSecurityNumber | State | Status | Submitter | Submission
  | Surname | Temple | Text | Time | Title
  | Trailer | Type | Version | Wife | Will
  | Web
  | Custom (value : String)
deriving Repr

/-- The fixed tag table.  The chunks `TAG_TABLE_0` .. `TAG_TABLE_4` below
transcribe, in order, the 136 arms of the `match` in
`impl FromStr for GedcomLineTag` (`src/models/gedcom/line.rs`, lines
233-369); they are split only to keep list-literal elaboration cheap. -/
def TAG_TABLE_0 : List (String × GedcomLineTag) :=
  [("ABBR", .Abbreviation),
   ("ADDR", .Address),
   ("ADR1", .Address1),
   ("ADR2", .Address2),
   ("ADOP", .Adoption),
   ("AFN", .AncestralFileNumber),
   ("AGE", .Age),
   ("AGNC", .Agency),
   ("ALIA", .Alias),
   ("ANCE", .Ancestors),
   ("ANCI", .AncestorInterest),
   ("ANUL", .Annulment),
   ("ASSO", .Associates),
   ("AUTH", .Author),
   ("BAPL", .BaptismLds),
   ("BAPM", .Baptism),
   ("BARM", .BarMitzvah),
   ("BASM", .BasMitzvah),
   ("BIRT", .Birth),
   ("BLES", .Blessing),
   ("BURI", .Burial),
   ("CALN", .CallNumber),
   ("CAST", .Caste),
   ("CAUS", .Cause),
   ("CENS", .Census),
   ("CHAN", .Change),
   ("CHAR", .Character),
   ("CHIL", .Child)]

def TAG_TABLE_1 : List (String × GedcomLineTag) :=
  [("CHR", .Christening),
   ("CHRA", .AdultChristening),
   ("CITY", .City),
   ("CONC", .Concatenation),
   ("CONF", .Confirmation),
   ("CONL", .ConfirmationLds),
   ("CONT", .Continued),
   ("COPR", .Copyright),
   ("CORP", .Corporate),
   ("CREM", .Cremation),
   ("CTRY", .Country),
   ("DATA", .Data),
   ("DATE", .Date),
   ("DEAT", .Death),
   ("DESC", .Descendants),
   ("DESI", .DescendantInterest),
   ("DEST", .Destination),
   ("DIV", .Divorce),
   ("DIVF", .DivorceFiled),
   ("DSCR", .PhysicalDescription),
   ("EDUC", .Education),
   ("EMAI", .Email),
   ("EMIG", .Emigration),
   ("ENDL", .Endowment),
   ("ENGA", .Engagement),
   ("EVEN", .Event),
   ("FACT", .Fact),
   ("FAM", .Family)]

def TAG_TABLE_2 : List (String × GedcomLineTag) :=
  [("FAMC", .FamilyChild),
   ("FAMF", .FamilyFile),
   ("FAMS", .FamilySpouse),
   ("FAX", .Facsimile),
   ("FCOM", .FirstCommunion),
   ("FILE", .File),
   ("FORM", .Format),
   ("FONE", .Phonetic),
   ("GEDC", .Gedcom),
   ("GIVN", .GivenName),
   ("GRAD", .Graduation),
   ("HEAD", .Header),
   ("HUSB", .Husband),
   ("IDNO", .IdentityNumber),
   ("IMMI", .Immigration),
   ("INDI", .Individual),
   ("LANG", .Language),
   ("LATI", .Latitude),
   ("LONG", .Longitude),
   ("MAP", .Map),
   ("MARB", .MarriageBanns),
   ("MARC", .MarriageContract),
   ("MARL", .MarriageLicense),
   ("MARR", .Marriage),
   ("MARS", .MarriageSettlement),
   ("MEDI", .Media),
   ("NAME", .Name),
   ("NATI", .Nationality)]

def TAG_TABLE_3 : List (String × GedcomLineTag) :=
  [("NATU", .Naturalisation),
   ("NCHI", .ChildrenCount),
   ("NICK", .Nickname),
   ("NMR", .MarriageCount),
   ("NOTE", .Note),
   ("NPFX", .NamePrefix),
   ("NSFX", .NameSuffix),
   ("OBJE", .Object),
   ("OCCU", .Occupation),
   ("ORDI", .Ordinance),
   ("ORDN", .Ordination),
   ("PAGE", .Page),
   ("PEDI", .Pedigree),
   ("PHON", .Phone),
   ("PLAC", .Place),
   ("POST", .PostalCode),
   ("PROB", .Probate),
   ("PROP", .Property),
   ("PUBL", .Publication),
   ("QUAY", .QualityOfData),
   ("REFN", .Reference),
   ("RELA", .Relationship),
   ("RELI", .Religion),
   ("REPO", .Repository),
   ("RESI", .Residence),
   ("RESN", .Restriction),
   ("RETI", .Retirement),
   ("RFN", .RecordFileNumber)]

def TAG_TABLE_4 : List (String × GedcomLineTag) :=
  [("RIN", .RecordIdNumber),
   ("ROLE", .Role),
   ("ROMN", .Romanised),
   ("SEX", .Sex),
   ("SLGC", .SealingChild),
   ("SLGS", .SealingSpouse),
   ("SOUR", .Source),
   ("SPFX", .SurnamePrefix),
   ("SSN", .SocialSecurityNumber),
   ("STAE", .State),
   ("STAT", .Status),
   ("SUBM", .Submitter),
   ("SUBN", .Submission),
   ("SURN", .Surname),
   ("TEMP", .Temple),
   ("TEXT", .Text),
   ("TIME", .Time),
   ("TITL", .Title),
   ("TRLR", .Trailer),
   ("TYPE", .Type),
   ("VERS", .Version),
   ("WIFE", .Wife),
   ("WILL", .Will),
   ("WWW", .Web)]

/-- The full tag table, in source order. -/
def TAG_TABLE : List (String × GedcomLineTag) :=
  TAG_TABLE_0 ++ TAG_TABLE_1 ++ TAG_TABLE_2 ++ TAG_TABLE_3 ++ TAG_TABLE_4

/-- A character permitted after the leading underscore of a custom tag:
the class `[A-Za-z0-9_]` of the regex `VALID_CUSTOM_TAG`. -/
def isCustomTagChar (c : Char) : Bool :=
  (('A' ≤ c && c ≤ 'Z') || ('a' ≤ c && c ≤ 'z') || ('0' ≤ c && c ≤ '9')
    || c = '_')

/-- The anchored regex `^(_[A-Za-z0-9_]+)$` of `src/models/gedcom/line.rs`:
an underscore followed by one or more characters of `[A-Za-z0-9_]`. -/
def valid_custom_tag (s : String) : Bool :=
  match s.data with
  | '_' :: rest => !rest.isEmpty && rest.all isCustomTagChar
  | _ => false

/-- `impl FromStr for GedcomLineTag` (`src/models/gedcom/line.rs`): exact
match against the fixed table, else the custom-tag fallback which keeps the
token verbatim. -/
def gedcom_line_tag_from_str (s : String) : Except String GedcomLineTag :=
  match TAG_TABLE.find? (fun p => p.1 = s) with
  | some p => .ok p.2
  | none =>
      if valid_custom_tag s then .ok (.Custom s)
      else .error "Custom tag value must start with _ and contain only A-Z, a-z, 0-9 and _"

/-- A parsed line record, mirroring the Rust struct `GedcomLine`
(`src/models/gedcom/line.rs`).  `level` is a `u8` there; the parser only
produces values in `0..=99`. -/
structure GedcomLine : Type where
  level : Nat
  line_value : Option String
  tag : GedcomLineTag
  xref_id : Option String
deriving Repr

/-- The result of a nom parser on the remaining input: `ok` carries the
unconsumed rest and the parsed value; `err true` models `Err::Failure`
(fatal), `err false` models `Err::Error` (recoverable). -/
inductive PResult (α : Type) : Type where
  | ok (rest : List Char) (val : α)
  | err (fatal : Bool)
deriving Repr

instance {α : Type} [DecidableEq α] : DecidableEq (PResult α) := fun a b => by
  cases a <;> cases b
  case ok.ok r₁ v₁ r₂ v₂ =>
    exact match decEq r₁ r₂, decEq v₁ v₂ with
    | isTrue h₁, isTrue h₂ => isTrue (by rw [h₁, h₂])
    | isFalse h₁, _ => isFalse (fun h => by cases h; exact h₁ rfl)
    | _, isFalse h₂ => isFalse (fun h => by cases h; exact h₂ rfl)
  case ok.err _ _ _ => exact isFalse (fun h => by cases h)
  case err.ok _ _ _ => exact isFalse (fun h => by cases h)
  case err.err f₁ f₂ =>
    exact match decEq f₁ f₂ with
    | isTrue h => isTrue (by rw [h])
    | isFalse h => isFalse (fun hh => by cases hh; exact h rfl)

/-- The type of a nom parser specialised to `&str` input, modelled over
`List Char`. -/
abbrev P (α : Type) : Type := List Char → PResult α

/-- nom's `one_of`: consumes one character if it occurs in the list,
otherwise a recoverable error (also on empty input). -/
def one_of (cl : List Char) : P Char := fun cs =>
  match cs with
  | c :: rest => if cl.contains c then .ok rest c else .err false
  | [] => .err false

/-- nom's `char`: consumes exactly the given character. -/
def pchar (c : Char) : P Char := fun cs =>
  match cs with
  | c0 :: rest => if c0 = c then .ok rest c else .err false
  | [] => .err false

/-- nom's `alt` for two branches: the second runs only when the first
fails recoverably; a fatal failure propagates. -/
def alt2 {α : Type} (p q : P α) : P α := fun cs =>
  match p cs with
  | .ok r a => .ok r a
  | .err true => .err true
  | .err false => q cs

/-- nom's `opt`: a recoverable failure yields `none` without consuming
input; a fatal failure propagates. -/
def popt {α : Type} (p : P α) : P (Option α) := fun cs =>
  match p cs with
  | .ok r a => .ok r (some a)
  | .err true => .err true
  | .err false => .ok cs none

/-- The byte list `ALPHA` of `src/parser/primitive.rs` (A-Z, a-z and the
underscore 0x5F), as characters. -/
def ALPHA : List Char :=
  ([0x41, 0x42, 0x43, 0x44, 0x45, 0x46, 0x47, 0x48, 0x49, 0x4A, 0x4B, 0x4C,
    0x4D, 0x4E, 0x4F, 0x50, 0x51, 0x52, 0x53, 0x54, 0x55, 0x56, 0x57, 0x58,
    0x59, 0x5A, 0x61, 0x62, 0x63, 0x64, 0x65, 0x66, 0x67, 0x68, 0x69, 0x6A,
    0x6B, 0x6C, 0x6D, 0x6E, 0x6F, 0x70, 0x71, 0x72, 0x73, 0x74, 0x75, 0x76,
    0x77, 0x78, 0x79, 0x7A, 0x5F]).map Char.ofNat

/-- The byte list `DIGIT` of `src/parser/primitive.rs`. -/
def DIGIT : List Char :=
  ([0x30, 0x31, 0x32, 0x33, 0x34, 0x35, 0x36, 0x37, 0x38, 0x39]).map Char.ofNat

/-- The byte list `OTHERCHAR` of `src/parser/primitive.rs`, transcribed
verbatim. -/
def OTHERCHAR : List Char :=
  ([0x21, 0x22, 0x24, 0x25, 0x26, 0x27, 0x28, 0x29, 0x2A, 0x2B, 0x2C, 0x2D,
    0x2E, 0x2F, 0x3A, 0x3B, 0x3C, 0x3D, 0x3E, 0x3F, 0x5B, 0x5C, 0x5D, 0x5E,
    0x60, 0x7B, 0x7C, 0x7D, 0x7E, 0x80, 0x81, 0x82, 0x83, 0x84, 0x85, 0x86,
    0x87, 0x88, 0x89, 0x8A, 0x8B, 0x8C, 0x8D, 0x8E, 0x8F, 0x90, 0x91, 0x92,
    0x93, 0x94, 0x95, 0x96, 0x97, 0x98, 0x99, 0x9A, 0x9B, 0x9C, 0x9D, 0x9E,
    0x9F, 0xA0, 0xA1, 0xA2, 0xA3, 0xA4, 0xA5, 0xA6, 0xA7, 0xA8, 0xA9, 0xAA,
    0xAB, 0xAC, 0xAD, 0xAE, 0xAF, 0xB0, 0xB1, 0xB2, 0xB3, 0xB4, 0xB5, 0xB6,
    0xB7, 0xB8, 0xB9, 0xBA, 0xBB, 0xBC, 0xBD, 0xBE, 0xBF, 0xC0, 0xC1, 0xC2,
    0xC3, 0xC4, 0xC5, 0xC6, 0xC7, 0xC8, 0xC9, 0xCA, 0xCB, 0xCC, 0xCD, 0xCE,
    0xCF, 0xD0, 0xD1, 0xD2, 0xD3, 0xD4, 0xD5, 0xD6, 0xD7, 0xD8, 0xD9, 0xDA,
    0xDB, 0xDC, 0xDD, 0xDE, 0xDF, 0xE0, 0xE1, 0xE2, 0xE3, 0xE4, 0xE5, 0xE6,
    0xE7, 0xE8, 0xE9, 0xEA, 0xEB, 0xEC, 0xED, 0xEE, 0xEF, 0xF0, 0xF1, 0xF2,
    0xF3, 0xF4, 0xF5, 0xF6, 0xF7, 0xF8, 0xF9, 0xFA, 0xFB, 0xFC, 0xFD,
    0xFE]).map Char.ofNat

/-- `parse_alpha` (`src/parser/primitive.rs`). -/
def parse_alpha : P Char := one_of ALPHA

/-- `parse_digit` (`src/parser/primitive.rs`). -/
def parse_digit : P Char := one_of DIGIT

/-- `parse_alphanum` (`src/parser/primitive.rs`). -/
def parse_alphanum : P Char := alt2 parse_alpha parse_digit

/-- `parse_at` (`src/parser/primitive.rs`). -/
def parse_at : P Char := pchar '@'

/-- `parse_hash` (`src/parser/primitive.rs`). -/
def parse_hash : P Char := pchar '#'

/-- `parse_delim` (`src/parser/primitive.rs`): a single space. -/
def parse_delim : P Char := pchar ' '

/-- `parse_carriage_return` (`src/parser/primitive.rs`). -/
def parse_carriage_return : P Char := pchar '\r'

/-- `parse_line_feed` (`src/parser/primitive.rs`). -/
def parse_line_feed : P Char := pchar '\n'

/-- `parse_otherchar` (`src/parser/primitive.rs`). -/
def parse_otherchar : P Char := one_of OTHERCHAR

/-- Lifts a single-character parser to a one-character string segment. -/
def seg (p : P Char) : P (List Char) := fun cs =>
  match p cs with
  | .ok r c => .ok r [c]
  | .err f => .err f

/-- `parse_double_at` (`src/parser/primitive.rs`): the pair of two `@`. -/
def parse_double_at : P (List Char) := fun cs =>
  match parse_at cs with
  | .err f => .err f
  | .ok r _ =>
      match parse_at r with
      | .err f => .err f
      | .ok r2 _ => .ok r2 ['@', '@']

/-- `parse_anychar` (`src/parser/primitive.rs`): alternation of alpha,
delim, digit, double-at, hash and otherchar, in source order. -/
def parse_anychar : P (List Char) :=
  alt2 (seg parse_alpha)
    (alt2 (seg parse_delim)
      (alt2 (seg parse_digit)
        (alt2 parse_double_at
          (alt2 (seg parse_hash) (seg parse_otherchar)))))

/-- `parse_nonat` (`src/parser/primitive.rs`): like `parse_anychar` but
without the double-at branch. -/
def parse_nonat : P Char :=
  alt2 parse_alpha
    (alt2 parse_delim
      (alt2 parse_digit
        (alt2 parse_hash parse_otherchar)))

/-- nom's `many0`/`many1` iteration body, with explicit fuel.  Every parser
iterated in the source consumes at least one character on success, so with
fuel exceeding the input length the fuel never runs out; exhaustion is
mapped to a fatal error. -/
def manyAux {α : Type} (p : P α) : Nat → List Char → PResult (List α)
  | 0, _ => .err true
  | fuel + 1, cs =>
      match p cs with
      | .err true => .err true
      | .err false => .ok cs []
      | .ok r a =>
          match manyAux p fuel r with
          | .ok r2 l => .ok r2 (a :: l)
          | .err f => .err f

/-- nom's `many0`, fuelled by the input length. -/
def many0 {α : Type} (p : P α) : P (List α) := fun cs =>
  manyAux p (cs.length + 1) cs

/-- nom's `many1`: the first application must succeed, the rest iterate as
`many0`. -/
def many1 {α : Type} (p : P α) : P (List α) := fun cs =>
  match p cs with
  | .err f => .err f
  | .ok r a =>
      match manyAux p (r.length + 1) r with
      | .ok r2 l => .ok r2 (a :: l)
      | .err f => .err f

/-- Numeric value of a list of decimal digit characters. -/
def digitsToNat (ds : List Char) : Nat :=
  ds.foldl (fun acc c => acc * 10 + (c.toNat - '0'.toNat)) 0

/-- `parse_level` (`src/parser/level.rs`): one or two digits via
`many_m_n(1, 2, parse_digit)`; a two-digit token starting with `0` is a
fatal failure, as is (unreachably for at most two digits) a value outside
`u8`. -/
def parse_level : P Nat := fun cs =>
  match parse_digit cs with
  | .err f => .err f
  | .ok r1 d1 =>
      match parse_digit r1 with
      | .ok r2 d2 =>
          if d1 = '0' then .err true
          else
            let v := digitsToNat [d1, d2]
            if 255 < v then .err true else .ok r2 v
      | .err true => .err true
      | .err false =>
          let v := digitsToNat [d1]
          if 255 < v then .err true else .ok r1 v

/-- `parse_pointer` (`src/parser/pointer.rs`): `@`, one alphanumeric, any
number of non-`@` characters, `@`; the pieces are concatenated into the
pointer text. -/
def parse_pointer : P String := fun cs =>
  match parse_at cs with
  | .err f => .err f
  | .ok r1 _ =>
      match parse_alphanum r1 with
      | .err f => .err f
      | .ok r2 c =>
          match many0 parse_nonat r2 with
          | .err f => .err f
          | .ok r3 body =>
              match parse_at r3 with
              | .err f => .err f
              | .ok r4 _ => .ok r4 (('@' :: c :: body) ++ ['@']).asString

/-- `parse_optional_xref_id` (`src/parser/xref_id.rs`): a pointer followed
by a delimiter; only the pointer text is kept. -/
def parse_optional_xref_id : P String := fun cs =>
  match parse_pointer cs with
  | .err f => .err f
  | .ok r s =>
      match parse_delim r with
      | .err f => .err f
      | .ok r2 _ => .ok r2 s

/-- `parse_tag` (`src/parser/tag.rs`): one or more alphanumerics, then
classification through the tag vocabulary; an unclassifiable token is a
fatal failure. -/
def parse_tag : P GedcomLineTag := fun cs =>
  match many1 parse_alphanum cs with
  | .err f => .err f
  | .ok r chars =>
      match gedcom_line_tag_from_str chars.asString with
      | .ok t => .ok r t
      | .error _ => .err true

/-- `parse_escape` (`src/parser/line_value.rs`): `@`, `#`, escape text of
one or more `anychar` segments, `@`, and one non-`@` character. -/
def parse_escape : P (List Char) := fun cs =>
  match parse_at cs with
  | .err f => .err f
  | .ok r1 _ =>
      match parse_hash r1 with
      | .err f => .err f
      | .ok r2 _ =>
          match many1 parse_anychar r2 with
          | .err f => .err f
          | .ok r3 segs =>
              match parse_at r3 with
              | .err f => .err f
              | .ok r4 _ =>
                  match parse_nonat r4 with
                  | .err f => .err f
                  | .ok r5 c =>
                      .ok r5 (('@' :: '#' :: segs.flatten) ++ ['@', c])

/-- `parse_line_item_inner` (`src/parser/line_value.rs`). -/
def parse_line_item_inner : P (List Char) := alt2 parse_anychar parse_escape

/-- `parse_line_item` (`src/parser/line_value.rs`): one or more inner
segments, concatenated. -/
def parse_line_item : P String := fun cs =>
  match many1 parse_line_item_inner cs with
  | .err f => .err f
  | .ok r segs => .ok r segs.flatten.asString

/-- `parse_line_value` (`src/parser/line_value.rs`): a line item or a
pointer. -/
def parse_line_value : P String := alt2 parse_line_item parse_pointer

/-- `parse_optional_line_value` (`src/parser/line_value.rs`): a delimiter
followed by a line value. -/
def parse_optional_line_value : P String := fun cs =>
  match parse_delim cs with
  | .err f => .err f
  | .ok r _ => parse_line_value r

/-- `parse_terminator` (`src/parser/terminator.rs`): CRLF, LFCR, lone CR or
lone LF, in that order. -/
def parse_terminator : P (List Char) := fun cs =>
  match parse_carriage_return cs with
  | .ok r _ =>
      match parse_line_feed r with
      | .ok r2 _ => .ok r2 ['\r', '\n']
      | .err _ => .ok r ['\r']
  | .err _ =>
      match parse_line_feed cs with
      | .ok r _ =>
          match parse_carriage_return r with
          | .ok r2 _ => .ok r2 ['\n', '\r']
          | .err _ => .ok r ['\n']
      | .err f => .err f

/-- `parse_gedcom_line` (`src/parser.rs`): the six-component tuple
(level, delimiter, optional cross-reference label, tag, optional value,
terminator) assembled into a line record. -/
def parse_gedcom_line : P GedcomLine := fun cs =>
  match parse_level cs with
  | .err f => .err f
  | .ok r1 level =>
      match parse_delim r1 with
      | .err f => .err f
      | .ok r2 _ =>
          match popt parse_optional_xref_id r2 with
          | .err f => .err f
          | .ok r3 xref =>
              match parse_tag r3 with
              | .err f => .err f
              | .ok r4 tag =>
                  match popt parse_optional_line_value r4 with
                  | .err f => .err f
                  | .ok r5 value =>
                      match parse_terminator r5 with
                      | .err f => .err f
                      | .ok r6 _ =>
                          .ok r6 ⟨level, value, tag, xref⟩

/-- The loop of nom's `many1(parse_gedcom_line)` after a successful first
line: a recoverable failure stops the loop and returns the lines collected
so far (with the failing remainder unconsumed); a fatal failure aborts the
whole parse.  Fuel decreases each iteration; every parsed line consumes at
least its terminator, so fuel `length + 1` never runs out. -/
def many_gedcom_lines_aux : Nat → List Char → List GedcomLine →
    PResult (List GedcomLine)
  | fuel, cs, acc =>
      match parse_gedcom_line cs with
      | .err true => .err true
      | .err false => .ok cs acc.reverse
      | .ok r line =>
          match fuel with
          | 0 => .err true
          | fuel + 1 => many_gedcom_lines_aux fuel r (line :: acc)

/-- Strips the optional byte-order mark, as `parse_optional_bom`
(`src/parser.rs`). -/
def strip_bom (cs : List Char) : List Char :=
  match cs with
  | c :: rest => if c = Char.ofNat 0xFEFF then rest else cs
  | [] => cs

/-- `parse_gedcom` (`src/parser.rs`): optional BOM, then
`many1(parse_gedcom_line)`. -/
def parse_gedcom (cs : List Char) : PResult (List GedcomLine) :=
  match parse_gedcom_line (strip_bom cs) with
  | .err f => .err f
  | .ok r line => many_gedcom_lines_aux (r.length + 1) r [line]

/-- A reconstructed tree node, mirroring the Rust struct `GedcomTreeNode`
(`src/models/gedcom/tree.rs`): the fields of a line record plus the ordered
list of children. -/
inductive GedcomTreeNode : Type where
  | mk (level : Nat) (line_value : Option String) (tag : GedcomLineTag)
      (xref_id : Option String) (children : List GedcomTreeNode)

/-- Accessor `level()`. -/
def GedcomTreeNode.level : GedcomTreeNode → Nat
  | .mk l _ _ _ _ => l

/-- Accessor `line_value()`. -/
def GedcomTreeNode.line_value : GedcomTreeNode → Option String
  | .mk _ v _ _ _ => v

/-- Accessor `tag()`. -/
def GedcomTreeNode.tag : GedcomTreeNode → GedcomLineTag
  | .mk _ _ t _ _ => t

/-- Accessor `xref_id()`. -/
def GedcomTreeNode.xref_id : GedcomTreeNode → Option String
  | .mk _ _ _ x _ => x

/-- Accessor `children()`. -/
def GedcomTreeNode.children : GedcomTreeNode → List GedcomTreeNode
  | .mk _ _ _ _ cs => cs

/-- A node built from a line with given children, as
`GedcomTreeNodeBuilder::from(line).with_children(v).build()`; `build`
reverses the supplied children (`self.children.drain(..).rev()`), so the
caller passes them in drain order. -/
def node_of_line (line : GedcomLine) (drained : List GedcomTreeNode) :
    GedcomTreeNode :=
  .mk line.level line.line_value line.tag line.xref_id drained.reverse

/-- The working state of `impl From<Vec<GedcomLine>> for GedcomTree`
(`src/models/gedcom/tree.rs`): the finished root list `nodes`, the buffer
`children` of not-yet-attached nodes, and `previous_level` (initially the
sentinel 100). -/
structure TreeBuildState : Type where
  nodes : List GedcomTreeNode
  children : List GedcomTreeNode
  previous_level : Nat

/-- One iteration of the `while let Some(line) = lines.pop()` loop of the
tree builder: level 0 drains the whole buffer as children of a new root;
a level smaller than the previously processed one extracts exactly the
buffered nodes at `level + 1` (`drain_filter`); otherwise a childless node
is buffered.  `Vec::push` appends at the end of the list. -/
def tree_step (st : TreeBuildState) (line : GedcomLine) : TreeBuildState :=
  let current := line.level
  if current = 0 then
    { nodes := st.nodes ++ [node_of_line line st.children]
      children := []
      previous_level := current }
  else if current < st.previous_level then
    let taken := st.children.filter (fun c => c.level == current + 1)
    let kept := st.children.filter (fun c => !(c.level == current + 1))
    { nodes := st.nodes
      children := kept ++ [node_of_line line taken]
      previous_level := current }
  else
    { nodes := st.nodes
      children := st.children ++ [node_of_line line []]
      previous_level := current }

/-- Runs the builder loop over the lines: `lines.pop()` takes from the end
of the vector, so the head of the list is processed last. -/
def tree_run : List GedcomLine → TreeBuildState
  | [] => { nodes := [], children := [], previous_level := 100 }
  | l :: rest => tree_step (tree_run rest) l

/-- `GedcomTree::from(lines)` (`src/models/gedcom/tree.rs`): the root list,
reversed at the end to restore document order. -/
def gedcom_tree_from (lines : List GedcomLine) : List GedcomTreeNode :=
  (tree_run lines).nodes.reverse

mutual

/-- Pre-order flattening of a node: its own line record followed by the
flattening of its children. -/
def flatten_node : GedcomTreeNode → List GedcomLine
  | .mk l v t x cs => ⟨l, v, t, x⟩ :: flatten_forest cs

/-- Pre-order flattening of a forest. -/
def flatten_forest : List GedcomTreeNode → List GedcomLine
  | [] => []
  | n :: ns => flatten_node n ++ flatten_forest ns

end

mutual

/-- The child-level invariant on a node: every immediate child sits exactly
one level below its parent, recursively. -/
def node_levels_ok : GedcomTreeNode → Bool
  | .mk l _ _ _ cs => children_levels_ok l cs

/-- The child-level invariant on a children list relative to the parent
level. -/
def children_levels_ok (l : Nat) : List GedcomTreeNode → Bool
  | [] => true
  | c :: cs => (c.level == l + 1) && node_levels_ok c && children_levels_ok l cs

end

/-- The child-level invariant on a whole forest. -/
def forest_levels_ok (ns : List GedcomTreeNode) : Bool :=
  match ns with
  | [] => true
  | n :: rest => node_levels_ok n && forest_levels_ok rest

/-- A calendar timestamp, the model of chrono's `NaiveDateTime` as far as
this crate observes it. -/
structure DateTime : Type where
  year : Nat
  month : Nat
  day : Nat
  hour : Nat
  minute : Nat
  second : Nat
deriving DecidableEq, Repr

/-- A calendar date, the model of chrono's `NaiveDate`. -/
structure DateDetail : Type where
  year : Nat
  month : Nat
  day : Nat
deriving DecidableEq, Repr

/-- Leap-year rule of the proleptic Gregorian calendar used by chrono. -/
def is_leap_year (y : Nat) : Bool :=
  y % 4 = 0 && (y % 100 ≠ 0 || y % 400 = 0)

/-- Days in a month of the proleptic Gregorian calendar. -/
def days_in_month (y m : Nat) : Nat :=
  if m = 2 then (if is_leap_year y then 29 else 28)
  else if m = 4 || m = 6 || m = 9 || m = 11 then 30
  else 31

/-- One or two decimal digits, read greedily, for the `%-d` day field. -/
def read_day : List Char → Option (Nat × List Char)
  | c1 :: rest =>
      if c1.isDigit then
        match rest with
        | c2 :: rest2 =>
            if c2.isDigit then
              some (digitsToNat [c1, c2], rest2)
            else some (digitsToNat [c1], rest)
        | [] => some (digitsToNat [c1], [])
      else none
  | [] => none

/-- Three-letter month abbreviation for the `%b` field, case-insensitive
as chrono matches it. -/
def read_month : List Char → Option (Nat × List Char)
  | a :: b :: c :: rest =>
      let abbr := ([a, b, c].map Char.toLower).asString
      let m :=
        if abbr = "jan" then some 1 else if abbr = "feb" then some 2
        else if abbr = "mar" then some 3 else if abbr = "apr" then some 4
        else if abbr = "may" then some 5 else if abbr = "jun" then some 6
        else if abbr = "jul" then some 7 else if abbr = "aug" then some 8
        else if abbr = "sep" then some 9 else if abbr = "oct" then some 10
        else if abbr = "nov" then some 11 else if abbr = "dec" then some 12
        else none
      m.map (fun mo => (mo, rest))
  | _ => none

/-- Four decimal digits for the `%Y` year field (all dates this crate
handles are four-digit years). -/
def read_year : List Char → Option (Nat × List Char)
  | a :: b :: c :: d :: rest =>
      if a.isDigit && b.isDigit && c.isDigit && d.isDigit then
        some (digitsToNat [a, b, c, d], rest)
      else none
  | _ => none

/-- Exactly two decimal digits, for the `%H`/`%M`/`%S` fields. -/
def read_two_digits : List Char → Option (Nat × List Char)
  | a :: b :: rest =>
      if a.isDigit && b.isDigit then some (digitsToNat [a, b], rest) else none
  | _ => none

/-- A single expected literal character (the spaces and colons of the
format strings). -/
def read_lit (c : Char) : List Char → Option (List Char)
  | c0 :: rest => if c0 = c then some rest else none
  | [] => none

/-- The day-month-year part shared by both chrono format strings
`"%-d %b %Y"` and `"%-d %b %Y %H:%M:%S"`. -/
def read_day_month_year (cs : List Char) : Option (Nat × Nat × Nat × List Char) := do
  let (d, cs) ← read_day cs
  let cs ← read_lit ' ' cs
  let (m, cs) ← read_month cs
  let cs ← read_lit ' ' cs
  let (y, cs) ← read_year cs
  if 1 ≤ d && d ≤ days_in_month y m then pure (d, m, y, cs) else none

/-- Model of `NaiveDate::parse_from_str(s, "%-d %b %Y")` (the constant
`DATE_DETAIL_FORMAT` of `src/models/relation/fact.rs`): the whole string
must be consumed and the date must be a real calendar date. -/
def naive_date_from_str (s : String) : Option DateDetail := do
  let (d, m, y, rest) ← read_day_month_year s.data
  if rest.isEmpty then pure ⟨y, m, d⟩ else none

/-- Model of `NaiveDateTime::parse_from_str(s, "%-d %b %Y %H:%M:%S")`
(the format assembled in `change_node_to_date_time`,
`src/models/gedcom.rs`). -/
def naive_date_time_from_str (s : String) : Option DateTime := do
  let (d, m, y, cs) ← read_day_month_year s.data
  let cs ← read_lit ' ' cs
  let (h, cs) ← read_two_digits cs
  let cs ← read_lit ':' cs
  let (mi, cs) ← read_two_digits cs
  let cs ← read_lit ':' cs
  let (sec, cs) ← read_two_digits cs
  if cs.isEmpty && h ≤ 23 && mi ≤ 59 && sec ≤ 59 then
    pure ⟨y, m, d, h, mi, sec⟩
  else none

/-- `change_node_to_date_time` (`src/models/gedcom.rs`): first child is the
date node, whose value and whose own first child's value (the time) are
concatenated and parsed. -/
def change_node_to_date_time (node : GedcomTreeNode) : Except String DateTime :=
  match node.children.head? with
  | none => .error "Gedcom Change has no date"
  | some date_node =>
      match date_node.line_value with
      | none => .error "Gedcom Date has no value"
      | some date =>
          match date_node.children.head? with
          | none => .error "Gedcom Date has no time"
          | some time_node =>
              match time_node.line_value with
              | none => .error "Gedcom Time has no value"
              | some time =>
                  match naive_date_time_from_str (date ++ " " ++ time) with
                  | none => .error "Gedcom Change has invalid date_time"
                  | some dt => .ok dt

/-- The gender classification enum (`src/models/relation/person.rs`). -/
inductive Gender : Type where
  | male | female | other
deriving DecidableEq, Repr

/-- The `#[repr(u8)]` discriminants under which `Gender` serialises:
`Male = 1`, `Female = 2`, `Other = 3`. -/
def gender_serial : Gender → Nat
  | .male => 1
  | .female => 2
  | .other => 3

/-- Model of Rust's `str::to_lowercase` by character-wise lowering.  Rust
lowers the full Unicode range while `Char.toLower` only lowers ASCII, but
the two agree on whether the result equals `"m"` or `"f"` (the only
observation made of it): `'M'` and `'F'` are the only characters whose
Unicode lowercase is `m` respectively `f`. -/
def str_to_lowercase (s : String) : String :=
  ⟨s.data.map Char.toLower⟩

/-- `impl From<&str> for Gender` (`src/models/relation/person.rs`):
case-insensitive match of the single-letter code, defaulting to other. -/
def gender_from_str (s : String) : Gender :=
  match str_to_lowercase s with
  | "m" => .male
  | "f" => .female
  | _ => .other

/-- The `Place` record (`src/models/relation/fact.rs`). -/
structure PlaceRec : Type where
  place_name : String
deriving DecidableEq, Repr

/-- The `Birth` fact (`src/models/relation/fact.rs`); `fact_type_id` is
always the discriminant 405. -/
structure Birth : Type where
  date_detail : Option DateDetail
  fact_type_id : Nat
  place : Option PlaceRec
  preferred : Bool
deriving DecidableEq, Repr

/-- The `BirthBuilder` accumulator (`src/models/relation/fact.rs`). -/
structure BirthBuilder : Type where
  date_detail : Option DateDetail := none
  place : Option PlaceRec := none
  preferred : Option Bool := none

/-- One child of a Birth node, as scanned by
`impl From<&GedcomTreeNode> for Birth`: a `_PRIM` custom child whose value
is `Y` marks the fact preferred; a Date child's value is parsed (parse
failures leave the field unset); a Place child's value becomes the place. -/
def birth_builder_step (b : BirthBuilder) (child : GedcomTreeNode) :
    BirthBuilder :=
  match child.tag with
  | .Custom custom =>
      if custom = "_PRIM" && (child.line_value.getD "N") = "Y" then
        { b with preferred := some true }
      else b
  | .Date =>
      match child.line_value with
      | some date =>
          match naive_date_from_str date with
          | some d => { b with date_detail := some d }
          | none => b
      | none => b
  | .Place =>
      match child.line_value with
      | some p => { b with place := some ⟨p⟩ }
      | none => b
  | _ => b

/-- `Birth::from(&node)` followed by `BirthBuilder::build`
(`src/models/relation/fact.rs`).  `build` evaluates
`self.preferred.unwrap()`: when no `_PRIM`-`Y` child set the flag the Rust
code panics, modelled as `none`. -/
def birth_from_node (node : GedcomTreeNode) : Option Birth :=
  let b := node.children.foldl birth_builder_step {}
  match b.preferred with
  | none => none
  | some p =>
      some { date_detail := b.date_detail, fact_type_id := 405,
             place := b.place, preferred := p }

/-- The `Name` fact (`src/models/relation/fact.rs`); `fact_type_id` is
always the discriminant 100. -/
structure NameFact : Type where
  fact_type_id : Nat
  given_names : Option String
  surnames : Option String
deriving DecidableEq, Repr

/-- `Name::from(&node)` (`src/models/relation/fact.rs`): GivenName and
Surname children with values populate the fields; `build` always
succeeds. -/
def name_from_node (node : GedcomTreeNode) : NameFact :=
  let f := node.children.foldl
    (fun (acc : Option String × Option String) child =>
      match child.tag with
      | .GivenName =>
          match child.line_value with
          | some g => (some g, acc.2)
          | none => acc
      | .Surname =>
          match child.line_value with
          | some s => (acc.1, some s)
          | none => acc
      | _ => acc)
    (none, none)
  { fact_type_id := 100, given_names := f.1, surnames := f.2 }

/-- Modelled from the spec: the function `xref_id_to_numeric_id` is called
from `src/models/relation/person.rs` and `src/models/relation/api_response.rs`
but its definition is missing from the sources under `src/` (only its
companion regex constant `XREF_ID_DIGITS` appears, in `src/lib.rs`).
Section 9 of the specification describes the scheme in use as deriving
"numeric ids by extracting digits embedded in the cross-reference label
itself"; it is modelled as the numeric value of the digit characters of
the label, `none` when the label holds no digit. -/
def xref_id_to_numeric_id (s : String) : Option Nat :=
  let ds := s.data.filter Char.isDigit
  if ds.isEmpty then none else some (digitsToNat ds)

/-- The `Person` entity (`src/models/relation/person.rs`). -/
structure Person : Type where
  date_created : DateTime
  facts : Option (List Birth)
  gender : Gender
  id : Nat
  is_living : Option Bool
  names : List NameFact
deriving DecidableEq, Repr

/-- The `PersonBuilder` accumulator (`src/models/relation/person.rs`). -/
structure PersonBuilder : Type where
  date_created : Option DateTime := none
  facts : Option (List Birth) := none
  gender : Option Gender := none
  id : Option Nat := none
  names : Option (List NameFact) := none

/-- The child scan of `impl TryFrom<&GedcomTreeNode> for Person`: a Birth
child is converted (a panic inside propagates as the outer `none`); a
Change child is converted with `?`, so its failure aborts the whole
`try_from` with that error; a Sex child's value (defaulting to the empty
string) sets the gender; a Name child appends a name fact. -/
def person_children_fold (cs : List GedcomTreeNode) (b : PersonBuilder) :
    Option (Except String PersonBuilder) :=
  match cs with
  | [] => some (.ok b)
  | child :: rest =>
      match child.tag with
      | .Birth =>
          match birth_from_node child with
          | none => none
          | some birth =>
              person_children_fold rest
                { b with facts := some ((b.facts.getD []) ++ [birth]) }
      | .Change =>
          match change_node_to_date_time child with
          | .error e => some (.error e)
          | .ok dt =>
              person_children_fold rest { b with date_created := some dt }
      | .Sex =>
          person_children_fold rest
            { b with gender := some (gender_from_str (child.line_value.getD "")) }
      | .Name =>
          person_children_fold rest
            { b with names := some ((b.names.getD []) ++ [name_from_node child]) }
      | _ => person_children_fold rest b

/-- `PersonBuilder::build` (`src/models/relation/person.rs`): date_created,
gender and id are mandatory; names default to empty; `is_living` is always
set to true. -/
def person_build (b : PersonBuilder) : Except String Person :=
  match b.date_created with
  | none => .error "Person must have a date_created"
  | some dc =>
      match b.gender with
      | none => .error "Person must have a gender"
      | some g =>
          match b.id with
          | none => .error "Person must have an id"
          | some i =>
              .ok { date_created := dc, facts := b.facts, gender := g,
                    id := i, is_living := some true, names := b.names.getD [] }

/-- `Person::try_from(&node)` (`src/models/relation/person.rs`): the id is
seeded from the cross-reference label when present
(`xref_id_to_numeric_id(..).unwrap_or_default()`), then the children are
scanned and the builder finishes.  The outer `none` models a panic inside
the Birth conversion. -/
def person_try_from (node : GedcomTreeNode) : Option (Except String Person) :=
  match person_children_fold node.children
      { id := match node.xref_id with
              | some x => some ((xref_id_to_numeric_id x).getD 0)
              | none => none } with
  | none => none
  | some (.error e) => some (.error e)
  | some (.ok b) => some (person_build b)

/-- A child join row (`src/models/relation/family.rs`). -/
structure ChildRow : Type where
  child_id : Nat
  family_id : Nat
  id : Nat
  relationship_to_father : Nat
  relationship_to_mother : Nat
deriving DecidableEq, Repr

/-- `Child::new(child_id, id, family_id)` (`src/models/relation/family.rs`):
both relationship codes come from the `Default` impl and are the constant
1 ("biological"). -/
def child_new (child_id id family_id : Nat) : ChildRow :=
  { child_id := child_id, family_id := family_id, id := id,
    relationship_to_father := 1, relationship_to_mother := 1 }

/-- The `Family` entity (`src/models/relation/family.rs`). -/
structure Family : Type where
  date_created : DateTime
  father_id : Nat
  id : Nat
  mother_id : Nat
deriving DecidableEq, Repr

/-- The `FamilyBuilder` accumulator (`src/models/relation/family.rs`). -/
structure FamilyBuilder : Type where
  date_created : Option DateTime := none
  father_id : Option Nat := none
  id : Option Nat := none
  mother_id : Option Nat := none

/-- `FamilyBuilder::build`: all four fields are mandatory. -/
def family_build (b : FamilyBuilder) : Option Family :=
  match b.date_created, b.father_id, b.id, b.mother_id with
  | some dc, some f, some i, some m =>
      some { date_created := dc, father_id := f, id := i, mother_id := m }
  | _, _, _, _ => none

/-- `FAMILY_ID_SEED` (`src/models/relation/api_response.rs`). -/
def FAMILY_ID_SEED : Nat := 100

/-- `CHILD_ID_SEED` (`src/models/relation/api_response.rs`). -/
def CHILD_ID_SEED : Nat := 1000

/-- One child of a Family node, as scanned by the Family branch of
`impl From<GedcomTree> for ApiResponse`: Change sets the timestamp when it
converts; Child, Husband and Wife resolve their pointer value through the
person map, a Child emitting one join row with id `CHILD_ID_SEED +
person_id` and the owning family id. -/
def family_child_step (m : List (String × Nat)) (family_id : Nat)
    (acc : List ChildRow × FamilyBuilder) (child : GedcomTreeNode) :
    List ChildRow × FamilyBuilder :=
  match child.tag with
  | .Change =>
      match change_node_to_date_time child with
      | .ok dt => (acc.1, { acc.2 with date_created := some dt })
      | .error _ => acc
  | .Child =>
      match child.line_value with
      | some x =>
          match m.lookup x with
          | some pid =>
              (acc.1 ++ [child_new pid (CHILD_ID_SEED + pid) family_id], acc.2)
          | none => acc
      | none => acc
  | .Husband =>
      match child.line_value with
      | some x =>
          match m.lookup x with
          | some pid => (acc.1, { acc.2 with father_id := some pid })
          | none => acc
      | none => acc
  | .Wife =>
      match child.line_value with
      | some x =>
          match m.lookup x with
          | some pid => (acc.1, { acc.2 with mother_id := some pid })
          | none => acc
      | none => acc
  | _ => acc

/-- The whole Family branch for one root node carrying the label `x`: the
family id is `FAMILY_ID_SEED` plus the digits of the label, the children
are scanned in order, and the family is built at the end.  Returns the
join rows emitted along the way (they are kept even when the build
fails). -/
def family_branch (m : List (String × Nat)) (x : String)
    (node : GedcomTreeNode) : List ChildRow × Option Family :=
  ((node.children.foldl
      (family_child_step m (FAMILY_ID_SEED + (xref_id_to_numeric_id x).getD 0))
      ([], { id := some (FAMILY_ID_SEED + (xref_id_to_numeric_id x).getD 0) })).1,
   family_build
     (node.children.foldl
       (family_child_step m (FAMILY_ID_SEED + (xref_id_to_numeric_id x).getD 0))
       ([], { id := some (FAMILY_ID_SEED + (xref_id_to_numeric_id x).getD 0) })).2)

/-- The accumulating state of `impl From<GedcomTree> for ApiResponse`
(`src/models/relation/api_response.rs`): the three output collections and
the transient label-to-id map.  The map is modelled as an association list
whose most recent insertion is found first, matching `HashMap::insert`
followed by `get`. -/
structure ApiAcc : Type where
  childs : List ChildRow := []
  familys : List Family := []
  persons : List Person := []
  persons_id_map : List (String × Nat) := []

/-- One root node of the forest walk: an Individual root with a label is
converted to a Person (accepted persons are pushed and registered in the
map, builder failures are silently skipped, a panic aborts everything); a
Family root with a label runs the family branch; every other root is
ignored. -/
def api_step (acc : ApiAcc) (node : GedcomTreeNode) : Option ApiAcc :=
  match node.tag with
  | .Individual =>
      match node.xref_id with
      | some x =>
          match person_try_from node with
          | none => none
          | some (.error _) => some acc
          | some (.ok p) =>
              some { acc with
                      persons := acc.persons ++ [p],
                      persons_id_map := (x, p.id) :: acc.persons_id_map }
      | none => some acc
  | .Family =>
      match node.xref_id with
      | some x =>
          some { acc with
                  childs := acc.childs ++ (family_branch acc.persons_id_map x node).1,
                  familys :=
                    acc.familys ++ (family_branch acc.persons_id_map x node).2.toList }
      | none => some acc
  | _ => some acc

/-- The walk over all roots, in document order. -/
def api_fold : List GedcomTreeNode → ApiAcc → Option ApiAcc
  | [], acc => some acc
  | n :: rest, acc =>
      match api_step acc n with
      | none => none
      | some acc2 => api_fold rest acc2

/-- The output document (`src/models/relation/api_response.rs`): the three
populated collections plus the four always-empty placeholder
collections. -/
structure ApiResponse : Type where
  childs : List ChildRow
  fact_types : List Unit
  familys : List Family
  master_sources : List Unit
  medias : List Unit
  persons : List Person
  source_repos : List Unit
deriving DecidableEq, Repr

/-- `ApiResponse::from(tree)`: `none` models a panic during the walk. -/
def api_response_from_tree (nodes : List GedcomTreeNode) :
    Option ApiResponse :=
  (api_fold nodes {}).map (fun acc =>
    { childs := acc.childs, fact_types := [], familys := acc.familys,
      master_sources := [], medias := [], persons := acc.persons,
      source_repos := [] })

/-- `gedcom_to_relation_json` (`src/lib.rs`) up to JSON serialisation:
parse (discarding any unconsumed remainder, exactly as the
`let (_, gedcom_lines) = parse_gedcom(input) ...` does), build the forest,
and run the mapper.  A parse failure is the returned error; the inner
`Option` models a panic in the mapper. -/
def gedcom_to_relation (cs : List Char) : Except String (Option ApiResponse) :=
  match parse_gedcom cs with
  | .err _ => .error "Could not parse GEDCOM input"
  | .ok _ lines => .ok (api_response_from_tree (gedcom_tree_from lines))

/-- Whether a parse result is a success. -/
def PResult.isOk {α : Type} : PResult α → Bool
  | .ok _ _ => true
  | .err _ => false

/-- A Birth node with a Date child but no `_PRIM` child: the input on which
`BirthBuilder::build` panics. -/
def c9_birth_node : GedcomTreeNode :=
  .mk 1 none .Birth none [.mk 2 (some "1 Jan 1990") .Date none []]

/-- A full document whose only Individual carries such a Birth node; the
whole conversion dies on it. -/
def c9_doc : List Char :=
  ("0 @I1@ INDI\r\n1 SEX M\r\n1 BIRT\r\n2 DATE 1 Jan 1990\r\n" ++
   "1 CHAN\r\n2 DATE 15 APR 2020\r\n3 TIME 16:19:21\r\n").data


/-- A document whose second line is not parseable by the line grammar (the
single character `Z`), used against claim C1. -/
def c1_bad_doc : List Char := "0 HEAD\r\nZ".data

/-- The output document with every collection empty. -/
def empty_api_response : ApiResponse := ⟨[], [], [], [], [], [], []⟩


/-- Pairwise level constraint down the document: each record's level is at
most its predecessor's plus one. -/
def levels_chain_ok : List GedcomLine → Bool
  | [] => true
  | [_] => true
  | a :: b :: rest => decide (b.level ≤ a.level + 1) && levels_chain_ok (b :: rest)

/-- A well-formed document of line records: empty, or starting at level 0
with well-nested levels, all within the parser's range `0..=99`. -/
def doc_well_formed (lines : List GedcomLine) : Bool :=
  match lines with
  | [] => true
  | l :: _ =>
      l.level == 0 && levels_chain_ok lines &&
        lines.all (fun x => decide (x.level ≤ 99))

/-- The invariant maintained by the backward tree-building loop over the
processed suffix `lines`: (1) the buffered subtrees followed by the
finished roots re-flatten, in document order, to exactly `lines`;
(2) buffered subtrees satisfy the child-level invariant and sit at
level at least 1; (3) finished roots satisfy it and sit at level 0;
(4) buffered subtree levels weakly decrease in document order; (5) the
recorded previous level is the level of the last processed line (100
initially); (6) the most recently buffered subtree sits exactly at the
previous level. -/
def tree_inv (lines : List GedcomLine) (st : TreeBuildState) : Prop :=
  flatten_forest st.children.reverse ++ flatten_forest st.nodes.reverse = lines ∧
  (∀ t ∈ st.children, node_levels_ok t = true ∧ 1 ≤ t.level) ∧
  (∀ t ∈ st.nodes, node_levels_ok t = true ∧ t.level = 0) ∧
  st.children.reverse.Pairwise (fun a b => b.level ≤ a.level) ∧
  (match lines with
   | [] => st = ⟨[], [], 100⟩
   | l :: _ => st.previous_level = l.level) ∧
  (∀ t, st.children.reverse.head? = some t → t.level = st.previous_level)

/-- Two individually valid line records whose levels are not well nested
(0 then 2), used against claim C2. -/
def c2_bad_lines : List GedcomLine :=
  [⟨0, none, .Individual, none⟩, ⟨2, some "X", .Name, none⟩]

/-- A small well-nested document, the witness input for C2. -/
def c2_wf_lines : List GedcomLine :=
  [⟨0, none, .Individual, none⟩, ⟨1, some "Name", .Name, none⟩,
   ⟨2, some "Given", .GivenName, none⟩]


/-- Recogniser for the Sex tag. -/
def tag_is_sex : GedcomLineTag → Bool
  | .Sex => true
  | _ => false

/-- Recogniser for the Change tag. -/
def tag_is_change : GedcomLineTag → Bool
  | .Change => true
  | _ => false

/-- Recogniser for the Husband tag. -/
def tag_is_husband : GedcomLineTag → Bool
  | .Husband => true
  | _ => false

/-- Recogniser for the Wife tag. -/
def tag_is_wife : GedcomLineTag → Bool
  | .Wife => true
  | _ => false

/-- Recogniser for the Child tag. -/
def tag_is_child : GedcomLineTag → Bool
  | .Child => true
  | _ => false

/-- Whether a Change child converts to a timestamp. -/
def change_ok (c : GedcomTreeNode) : Bool :=
  (change_node_to_date_time c).isOk

/-- A gender can be derived: the node has a Sex child (any value, even a
missing one, classifies). -/
def has_sex_child (node : GedcomTreeNode) : Bool :=
  node.children.any (fun c => tag_is_sex c.tag)

/-- A creation timestamp can be derived by `Person::try_from`: there is a
Change child and every Change child converts (a failing one aborts the
whole conversion through the `?` operator). -/
def timestamp_derivable (node : GedcomTreeNode) : Bool :=
  node.children.any (fun c => tag_is_change c.tag) &&
    node.children.all (fun c => !tag_is_change c.tag || change_ok c)

/-- Whether the candidate Person of an Individual node is accepted. -/
def person_accepted (node : GedcomTreeNode) : Bool :=
  match person_try_from node with
  | some (.ok _) => true
  | _ => false

/-- A creation timestamp can be derived by the Family branch: at least one
Change child converts (failing ones are silently skipped there). -/
def has_ok_change (node : GedcomTreeNode) : Bool :=
  node.children.any (fun c => tag_is_change c.tag && change_ok c)

/-- Whether a child node's pointer value resolves through the person
map. -/
def ptr_resolves (m : List (String × Nat)) (c : GedcomTreeNode) : Bool :=
  match c.line_value with
  | some x => (m.lookup x).isSome
  | none => false

/-- A father id can be derived: some Husband child resolves. -/
def husb_resolves (m : List (String × Nat)) (node : GedcomTreeNode) : Bool :=
  node.children.any (fun c => tag_is_husband c.tag && ptr_resolves m c)

/-- A mother id can be derived: some Wife child resolves. -/
def wife_resolves (m : List (String × Nat)) (node : GedcomTreeNode) : Bool :=
  node.children.any (fun c => tag_is_wife c.tag && ptr_resolves m c)

/-- Referential integrity of an output document: every Child join row's
ChildId, and every Family's FatherId and MotherId, is the Id of some
emitted Person. -/
def response_ref_integrity (r : ApiResponse) : Bool :=
  r.childs.all (fun c => r.persons.any (fun p => p.id == c.child_id)) &&
    r.familys.all (fun f =>
      r.persons.any (fun p => p.id == f.father_id) &&
        r.persons.any (fun p => p.id == f.mother_id))

/-- The referential-integrity invariant of the mapper's accumulating
state: map entries, emitted join rows and emitted families all point at
already-accepted persons. -/
def acc_integrity (acc : ApiAcc) : Prop :=
  (∀ pr ∈ acc.persons_id_map, ∃ p ∈ acc.persons, p.id = pr.2) ∧
  (∀ c ∈ acc.childs, ∃ p ∈ acc.persons, p.id = c.child_id) ∧
  (∀ f ∈ acc.familys,
    (∃ p ∈ acc.persons, p.id = f.father_id) ∧
    (∃ p ∈ acc.persons, p.id = f.mother_id))

/-- The boundary document of claim C4: a single Individual root with only
a Name child. -/
def c4_boundary_doc : List Char :=
  "0 @I1@ INDI\r\n1 NAME Gavin /Henderson/\r\n".data

/-- A complete Individual node (Sex and convertible Change children), the
witness input for C4. -/
def c4_wit_node : GedcomTreeNode :=
  .mk 0 none .Individual (some "@I7@")
    [.mk 1 (some "M") .Sex none [],
     .mk 1 none .Change none
       [.mk 2 (some "15 APR 2020") .Date none
         [.mk 3 (some "16:19:21") .Time none []]]]

/-- The accepted person of `c4_wit_node`. -/
def c4_wit_person : Person :=
  { date_created := ⟨2020, 4, 15, 16, 19, 21⟩, facts := none,
    gender := .male, id := 7, is_living := some true, names := [] }

/-- The output of the mapper on the forest `[c4_wit_node]`. -/
def c4_wit_resp : ApiResponse :=
  { childs := [], fact_types := [], familys := [], master_sources := [],
    medias := [], persons := [c4_wit_person], source_repos := [] }

/-- An Individual root that is accepted as a person, the first root of
the witness input for C5. -/
def c5_wit_ind_node : GedcomTreeNode :=
  .mk 0 none .Individual (some "@I1@")
    [.mk 1 (some "M") .Sex none [],
     .mk 1 none .Change none
       [.mk 2 (some "15 APR 2020") .Date none
         [.mk 3 (some "16:19:21") .Time none []]]]

/-- A Family root whose Husband, Wife, Child and Change children all
derive, the second root of the witness input for C5. -/
def c5_wit_fam_node : GedcomTreeNode :=
  .mk 0 none .Family (some "@F9@")
    [.mk 1 (some "@I1@") .Husband none [],
     .mk 1 (some "@I1@") .Wife none [],
     .mk 1 (some "@I1@") .Child none [],
     .mk 1 none .Change none
       [.mk 2 (some "15 APR 2020") .Date none
         [.mk 3 (some "16:20:00") .Time none []]]]

/-- A forest with one accepted person and one fully derivable Family
root, the witness input for C5. -/
def c5_wit_nodes : List GedcomTreeNode := [c5_wit_ind_node, c5_wit_fam_node]

/-- The person accepted from the first root of `c5_wit_nodes`. -/
def c5_wit_person : Person :=
  { date_created := ⟨2020, 4, 15, 16, 19, 21⟩, facts := none,
    gender := .male, id := 1, is_living := some true, names := [] }

/-- The mapper state after the first root of `c5_wit_nodes`. -/
def c5_wit_acc : ApiAcc :=
  { childs := [], familys := [], persons := [c5_wit_person],
    persons_id_map := [("@I1@", 1)] }

/-- The output of the mapper on `c5_wit_nodes`. -/
def c5_wit_resp : ApiResponse :=
  { childs := [child_new 1 1001 109], fact_types := [],
    familys := [{ date_created := ⟨2020, 4, 15, 16, 20, 0⟩, father_id := 1,
                  id := 109, mother_id := 1 }],
    master_sources := [], medias := [],
    persons := [c5_wit_person], source_repos := [] }

/-- A document whose one Family record holds two Child pointers resolving
to two registered Persons whose labels embed the same digits
(`@I1@` and `@X1@`), used against claim C6. -/
def c6_doc : List Char :=
  ("0 @I1@ INDI\r\n1 SEX M\r\n1 CHAN\r\n2 DATE 15 APR 2020\r\n3 TIME 16:19:21\r\n" ++
   "0 @X1@ INDI\r\n1 SEX F\r\n1 CHAN\r\n2 DATE 15 APR 2020\r\n3 TIME 16:19:21\r\n" ++
   "0 @F1@ FAM\r\n1 HUSB @I1@\r\n1 WIFE @X1@\r\n1 CHIL @I1@\r\n1 CHIL @X1@\r\n" ++
   "1 CHAN\r\n2 DATE 15 APR 2020\r\n3 TIME 16:20:00\r\n").data

/-- The join row emitted (twice) for `c6_doc`. -/
def c6_row : ChildRow := child_new 1 1001 101

/-- The male person of `c6_doc` (label `@I1@`, id 1). -/
def c6_person_m : Person :=
  { date_created := ⟨2020, 4, 15, 16, 19, 21⟩, facts := none,
    gender := .male, id := 1, is_living := some true, names := [] }

/-- The female person of `c6_doc` (label `@X1@`, also id 1). -/
def c6_person_f : Person :=
  { date_created := ⟨2020, 4, 15, 16, 19, 21⟩, facts := none,
    gender := .female, id := 1, is_living := some true, names := [] }

/-- The output of the pipeline on `c6_doc`. -/
def c6_resp : ApiResponse :=
  { childs := [c6_row, c6_row], fact_types := [],
    familys := [{ date_created := ⟨2020, 4, 15, 16, 20, 0⟩, father_id := 1,
                  id := 101, mother_id := 1 }],
    master_sources := [], medias := [],
    persons := [c6_person_m, c6_person_f], source_repos := [] }

/-- A person map with two distinct ids and a Family node with two Child
pointers, the witness input for C6 (amended). -/
def c6_wit_m : List (String × Nat) := [("@I1@", 1), ("@X2@", 2)]

/-- The Family node of the C6 witness. -/
def c6_wit_node : GedcomTreeNode :=
  .mk 0 none .Family (some "@F1@")
    [.mk 1 (some "@I1@") .Child none [],
     .mk 1 (some "@X2@") .Child none []]

/-- A document with two persons, one family and one join row, the witness
input for C10. -/
def c10_doc : List Char :=
  ("0 @I3@ INDI\r\n1 SEX M\r\n1 CHAN\r\n2 DATE 15 APR 2020\r\n3 TIME 16:41:07\r\n" ++
   "0 @I2@ INDI\r\n1 SEX F\r\n1 CHAN\r\n2 DATE 15 APR 2020\r\n3 TIME 16:39:15\r\n" ++
   "0 @F1@ FAM\r\n1 HUSB @I3@\r\n1 WIFE @I2@\r\n1 CHIL @I2@\r\n" ++
   "1 CHAN\r\n2 DATE 15 APR 2020\r\n3 TIME 16:40:57\r\n").data

/-- The forest built from `c10_doc` (the pipeline up to the mapper). -/
def c10_nodes : List GedcomTreeNode :=
  gedcom_tree_from
    (match parse_gedcom c10_doc with
     | .ok _ lines => lines
     | .err _ => [])

/-- The value a root node contributes to the persons collection: a
Person for an accepted Individual root carrying a label, nothing for
every other root. -/
def node_person (n : GedcomTreeNode) : Option Person :=
  match n.tag, n.xref_id with
  | .Individual, some _ =>
      match person_try_from n with
      | some (.ok p) => some p
      | _ => none
  | _, _ => none

/-- The join row one child of a Family record contributes: a resolving
Child pointer yields `Child::new(pid, CHILD_ID_SEED + pid, family_id)`,
anything else yields nothing. -/
def child_row_of (m : List (String × Nat)) (family_id : Nat)
    (c : GedcomTreeNode) : Option ChildRow :=
  match c.tag with
  | .Child =>
      match c.line_value with
      | some x =>
          match m.lookup x with
          | some pid => some (child_new pid (CHILD_ID_SEED + pid) family_id)
          | none => none
      | none => none
  | _ => none

/-- The output of the pipeline on `c10_doc`. -/
def c10_resp : ApiResponse :=
  { childs := [child_new 2 1002 101], fact_types := [],
    familys := [{ date_created := ⟨2020, 4, 15, 16, 40, 57⟩, father_id := 3,
                  id := 101, mother_id := 2 }],
    master_sources := [], medias := [],
    persons :=
      [{ date_created := ⟨2020, 4, 15, 16, 41, 7⟩, facts := none,
         gender := .male, id := 3, is_living := some true, names := [] },
       { date_created := ⟨2020, 4, 15, 16, 39, 15⟩, facts := none,
         gender := .female, id := 2, is_living := some true, names := [] }],
    source_repos := [] }

/-!
### Theorems

Everything below is proof: helper lemmas first, then one theorem per
claim (with its witness or counterexample where required).
-/

/-- Characters are equal when their code points are. -/
lemma char_eq_of_toNat {c d : Char} (h : c.toNat = d.toNat) : c = d :=
  Char.ext (UInt32.ext h)

lemma isDigit_iff (c : Char) : c.isDigit = true ↔ 48 ≤ c.toNat ∧ c.toNat ≤ 57 := by
  simp [Char.isDigit, UInt32.le_def, BitVec.le_def, Char.toNat, UInt32.toNat]

/-- The source's `DIGIT` byte class coincides with decimal-digit
characters. -/
lemma digit_contains (c : Char) : DIGIT.contains c = c.isDigit := by
  by_cases h : c.isDigit = true
  · obtain ⟨h1, h2⟩ := (isDigit_iff c).1 h
    rw [h]
    have hm : c ∈ DIGIT := by
      simp only [DIGIT, List.mem_map]
      refine ⟨c.toNat, ?_, Char.ofNat_toNat c⟩
      simp only [List.mem_cons, List.not_mem_nil, or_false]
      omega
    simpa using hm
  · simp only [Bool.not_eq_true] at h
    rw [h]
    have hb : ¬(48 ≤ c.toNat ∧ c.toNat ≤ 57) := fun hh => by
      rw [(isDigit_iff c).2 hh] at h; cases h
    cases hcc : DIGIT.contains c
    · rfl
    · exfalso
      have hm : c ∈ DIGIT := by simpa using hcc
      simp only [DIGIT, List.mem_map] at hm
      obtain ⟨n, hn, hofc⟩ := hm
      fin_cases hn <;> exact hb (by rw [← hofc]; decide)

lemma parse_digit_cons (c : Char) (rest : List Char) :
    parse_digit (c :: rest) = if c.isDigit then .ok rest c else .err false := by
  rw [parse_digit, one_of, digit_contains]

lemma parse_digit_nil : parse_digit [] = .err false := rfl

lemma zero_toNat : ('0' : Char).toNat = 48 := rfl

lemma digitsToNat_one_le (d : Char) (h : d.isDigit = true) : digitsToNat [d] ≤ 9 := by
  obtain ⟨h1, h2⟩ := (isDigit_iff d).1 h
  simp only [digitsToNat, List.foldl, zero_toNat]
  omega

lemma digitsToNat_two_le (d e : Char) (hd : d.isDigit = true) (he : e.isDigit = true) :
    digitsToNat [d, e] ≤ 99 := by
  obtain ⟨h1, h2⟩ := (isDigit_iff d).1 hd
  obtain ⟨h3, h4⟩ := (isDigit_iff e).1 he
  simp only [digitsToNat, List.foldl, zero_toNat]
  omega

/-- Claim C7: `parse_level` succeeds exactly when the input begins with one
decimal digit, or with two decimal digits of which the first is not `0`;
on success it returns the numeric value of the consumed digits (at most
two, so the value lies in `0..=99` and fits `u8`); an input starting with
`0` followed by another digit fails with a fatal (`Err::Failure`) error. -/
theorem c7_parse_level (cs : List Char) :
    ((parse_level cs).isOk = true ↔
      (∃ d rest, cs = d :: rest ∧ d.isDigit = true ∧
        (d = '0' → ∀ d2 rest2, rest = d2 :: rest2 → d2.isDigit = false))) ∧
    (∀ rest v, parse_level cs = .ok rest v →
      v ≤ 99 ∧
      ((rest = cs.drop 1 ∧ v = digitsToNat (cs.take 1)) ∨
       (rest = cs.drop 2 ∧ v = digitsToNat (cs.take 2)))) ∧
    (∀ d rest, cs = '0' :: d :: rest → d.isDigit = true → parse_level cs = .err true) := by
  cases cs with
  | nil =>
      have h1 : parse_level [] = .err false := rfl
      refine ⟨?_, ?_, ?_⟩
      · rw [h1]
        constructor
        · intro h; cases h
        · rintro ⟨d, rest, heq, -⟩; cases heq
      · intro rest v h; rw [h1] at h; cases h
      · intro d rest h; cases h
  | cons d rest =>
      cases hd : d.isDigit with
      | false =>
          have h1 : parse_level (d :: rest) = .err false := by
            simp [parse_level, parse_digit_cons, hd]
          refine ⟨?_, ?_, ?_⟩
          · rw [h1]
            constructor
            · intro h; cases h
            · rintro ⟨d', rest', heq, hdig, -⟩
              cases heq
              rw [hd] at hdig; cases hdig
          · intro r v h; rw [h1] at h; cases h
          · intro d2 rest2 heq h2
            cases heq
            rw [show ('0' : Char).isDigit = true from rfl] at hd
            cases hd
      | true =>
          cases rest with
          | nil =>
              have hb : ¬ (255 < digitsToNat [d]) := by
                have := digitsToNat_one_le d hd; omega
              have h1 : parse_level [d] = .ok [] (digitsToNat [d]) := by
                simp [parse_level, parse_digit_cons, parse_digit_nil, hd, hb]
              refine ⟨?_, ?_, ?_⟩
              · rw [h1]
                exact ⟨fun _ => ⟨d, [], rfl, hd, fun _ d2 r2 h => by cases h⟩, fun _ => rfl⟩
              · intro r v h
                rw [h1] at h
                cases h
                exact ⟨le_trans (digitsToNat_one_le d hd) (by norm_num),
                       Or.inl ⟨rfl, rfl⟩⟩
              · intro d2 rest2 h; cases h
          | cons d2 rest2 =>
              cases hd2 : d2.isDigit with
              | false =>
                  have hb : ¬ (255 < digitsToNat [d]) := by
                    have := digitsToNat_one_le d hd; omega
                  have h1 : parse_level (d :: d2 :: rest2) =
                      .ok (d2 :: rest2) (digitsToNat [d]) := by
                    simp [parse_level, parse_digit_cons, hd, hd2, hb]
                  refine ⟨?_, ?_, ?_⟩
                  · rw [h1]
                    refine ⟨fun _ => ⟨d, d2 :: rest2, rfl, hd, ?_⟩, fun _ => rfl⟩
                    intro h0 d3 r3 heq
                    cases heq
                    exact hd2
                  · intro r v h
                    rw [h1] at h
                    cases h
                    exact ⟨le_trans (digitsToNat_one_le d hd) (by norm_num),
                           Or.inl ⟨rfl, rfl⟩⟩
                  · intro d3 rest3 heq h3
                    cases heq
                    rw [h3] at hd2; cases hd2
              | true =>
                  by_cases h0 : d = '0'
                  · have h1 : parse_level (d :: d2 :: rest2) = .err true := by
                      simp [parse_level, parse_digit_cons, hd, hd2, h0]
                    refine ⟨?_, ?_, ?_⟩
                    · rw [h1]
                      constructor
                      · intro h; cases h
                      · rintro ⟨d', rest', heq, hdig, hz⟩
                        cases heq
                        have := hz h0 d2 rest2 rfl
                        rw [hd2] at this; cases this
                    · intro r v h; rw [h1] at h; cases h
                    · intro d3 rest3 heq h3; exact h1
                  · have hb : ¬ (255 < digitsToNat [d, d2]) := by
                      have := digitsToNat_two_le d d2 hd hd2; omega
                    have h1 : parse_level (d :: d2 :: rest2) =
                        .ok rest2 (digitsToNat [d, d2]) := by
                      simp [parse_level, parse_digit_cons, hd, hd2, h0, hb]
                    refine ⟨?_, ?_, ?_⟩
                    · rw [h1]
                      exact ⟨fun _ => ⟨d, d2 :: rest2, rfl, hd, fun hz => absurd hz h0⟩,
                             fun _ => rfl⟩
                    · intro r v h
                      rw [h1] at h
                      cases h
                      exact ⟨digitsToNat_two_le d d2 hd hd2, Or.inr ⟨rfl, rfl⟩⟩
                    · intro d3 rest3 heq h3
                      cases heq
                      exact absurd rfl h0

/-- Witness for C7 at the inputs `"10"` and `"05"`. -/
theorem c7_parse_level_witness :
    (parse_level ('1' :: '0' :: [])).isOk = true ∧
    parse_level ('0' :: '5' :: []) = .err true := by
  constructor
  · exact (c7_parse_level _).1.mpr ⟨'1', ['0'], rfl, rfl, fun h => absurd h (by decide)⟩
  · exact (c7_parse_level _).2.2 '5' [] rfl rfl

lemma char_toNat_ofNat {n : Nat} (h : n.isValidChar) : (Char.ofNat n).toNat = n := by
  unfold Char.ofNat
  rw [dif_pos h]
  rfl

/-- `Char.toLower` maps exactly the upper-case letter and the letter itself
to a lower-case letter. -/
lemma toLower_eq_lower (c up lo : Char) (h1 : 65 ≤ up.toNat) (h2 : up.toNat ≤ 90)
    (hlo : lo.toNat = up.toNat + 32) : c.toLower = lo ↔ (c = up ∨ c = lo) := by
  unfold Char.toLower
  by_cases h : c.toNat ≥ 65 ∧ c.toNat ≤ 90
  · rw [if_pos h]
    constructor
    · intro he
      left
      have hv : (c.toNat + 32).isValidChar := Or.inl (by omega)
      have h3 : (Char.ofNat (c.toNat + 32)).toNat = c.toNat + 32 := char_toNat_ofNat hv
      rw [he] at h3
      exact char_eq_of_toNat (by omega)
    · rintro (rfl | rfl)
      · have hv : (c.toNat + 32).isValidChar := Or.inl (by omega)
        exact char_eq_of_toNat (by rw [char_toNat_ofNat hv]; omega)
      · omega
  · rw [if_neg h]
    constructor
    · intro he; right; exact he
    · rintro (rfl | rfl)
      · exact absurd ⟨h1, h2⟩ h
      · rfl

lemma str_lower_m (s : String) : str_to_lowercase s = "m" ↔ (s = "M" ∨ s = "m") := by
  cases s with
  | mk data =>
      cases data with
      | nil => simp [str_to_lowercase, String.ext_iff]
      | cons c rest =>
          cases rest with
          | nil =>
              have hm := toLower_eq_lower c 'M' 'm' (by decide) (by decide) (by decide)
              simp [str_to_lowercase, String.ext_iff, hm]
          | cons c2 rest2 => simp [str_to_lowercase, String.ext_iff]

lemma str_lower_f (s : String) : str_to_lowercase s = "f" ↔ (s = "F" ∨ s = "f") := by
  cases s with
  | mk data =>
      cases data with
      | nil => simp [str_to_lowercase, String.ext_iff]
      | cons c rest =>
          cases rest with
          | nil =>
              have hf := toLower_eq_lower c 'F' 'f' (by decide) (by decide) (by decide)
              simp [str_to_lowercase, String.ext_iff, hf]
          | cons c2 rest2 => simp [str_to_lowercase, String.ext_iff]

lemma gender_from_str_cases (s : String) :
    (str_to_lowercase s = "m" ∧ gender_from_str s = .male) ∨
    (str_to_lowercase s ≠ "m" ∧ str_to_lowercase s = "f" ∧ gender_from_str s = .female) ∨
    (str_to_lowercase s ≠ "m" ∧ str_to_lowercase s ≠ "f" ∧ gender_from_str s = .other) := by
  by_cases hm : str_to_lowercase s = "m"
  · left
    refine ⟨hm, ?_⟩
    unfold gender_from_str
    split
    · rfl
    · next heq => exact absurd (hm.symm.trans heq) (by decide)
    · next x h1 h2 => exact absurd hm h1
  · by_cases hf : str_to_lowercase s = "f"
    · right; left
      refine ⟨hm, hf, ?_⟩
      unfold gender_from_str
      split
      · next heq => exact absurd heq hm
      · rfl
      · next x h1 h2 => exact absurd hf h2
    · right; right
      refine ⟨hm, hf, ?_⟩
      unfold gender_from_str
      split
      · next heq => exact absurd heq hm
      · next heq => exact absurd heq hf
      · rfl

/-- Claim C8: gender classification is case-insensitive on the single
letter code: exactly `"M"`/`"m"` classify male (serial 1), exactly
`"F"`/`"f"` female (serial 2), and every other string is other
(serial 3). -/
theorem c8_gender (s : String) :
    (gender_from_str s = .male ↔ (s = "M" ∨ s = "m")) ∧
    (gender_from_str s = .female ↔ (s = "F" ∨ s = "f")) ∧
    (s ≠ "M" → s ≠ "m" → s ≠ "F" → s ≠ "f" →
      gender_from_str s = .other ∧ gender_serial (gender_from_str s) = 3) ∧
    gender_serial Gender.male = 1 ∧ gender_serial Gender.female = 2 ∧
    gender_serial Gender.other = 3 := by
  rcases gender_from_str_cases s with ⟨hm, hg⟩ | ⟨hm, hf, hg⟩ | ⟨hm, hf, hg⟩
  · have hs := (str_lower_m s).1 hm
    refine ⟨⟨fun _ => hs, fun _ => hg⟩, ⟨?_, ?_⟩, ?_, rfl, rfl, rfl⟩
    · intro h; rw [hg] at h; cases h
    · rintro (rfl | rfl)
      · exact absurd hm (by decide)
      · exact absurd hm (by decide)
    · intro h1 h2 h3 h4
      rcases hs with rfl | rfl
      · exact absurd rfl h1
      · exact absurd rfl h2
  · have hs := (str_lower_f s).1 hf
    refine ⟨⟨?_, ?_⟩, ⟨fun _ => hs, fun _ => hg⟩, ?_, rfl, rfl, rfl⟩
    · intro h; rw [hg] at h; cases h
    · rintro (rfl | rfl)
      · exact absurd (by decide : str_to_lowercase "M" = "m") hm
      · exact absurd (by decide : str_to_lowercase "m" = "m") hm
    · intro h1 h2 h3 h4
      rcases hs with rfl | rfl
      · exact absurd rfl h3
      · exact absurd rfl h4
  · refine ⟨⟨?_, ?_⟩, ⟨?_, ?_⟩, fun _ _ _ _ => ⟨hg, by rw [hg]; rfl⟩, rfl, rfl, rfl⟩
    · intro h; rw [hg] at h; cases h
    · rintro (rfl | rfl)
      · exact absurd (by decide : str_to_lowercase "M" = "m") hm
      · exact absurd (by decide : str_to_lowercase "m" = "m") hm
    · intro h; rw [hg] at h; cases h
    · rintro (rfl | rfl)
      · exact absurd (by decide : str_to_lowercase "F" = "f") hf
      · exact absurd (by decide : str_to_lowercase "f" = "f") hf

/-- Witness for C8 at the string `"x"`. -/
theorem c8_gender_witness :
    gender_from_str "x" = .other ∧ gender_serial (gender_from_str "x") = 3 :=
  (c8_gender "x").2.2.1 (by decide) (by decide) (by decide) (by decide)

/-- In a table whose code column is duplicate-free, `find?` on the code of
a member returns exactly that member. -/
lemma find?_fst_of_nodup (l : List (String × GedcomLineTag)) (p : String × GedcomLineTag)
    (hnd : (l.map Prod.fst).Nodup) (hmem : p ∈ l) :
    l.find? (fun q => q.1 = p.1) = some p := by
  induction l with
  | nil => cases hmem
  | cons a rest ih =>
      by_cases ha : a.1 = p.1
      · rw [List.find?_cons_of_pos _ (by simpa using ha)]
        rcases List.mem_cons.1 hmem with rfl | hm
        · rfl
        · exfalso
          have : p.1 ∈ rest.map Prod.fst := List.mem_map_of_mem Prod.fst hm
          rw [List.map_cons] at hnd
          exact (List.nodup_cons.1 hnd).1 (ha ▸ this)
      · rw [List.find?_cons_of_neg _ (by simpa using ha)]
        rw [List.map_cons] at hnd
        rcases List.mem_cons.1 hmem with rfl | hm
        · exact absurd rfl ha
        · exact ih (List.nodup_cons.1 hnd).2 hm

set_option maxRecDepth 8192 in
lemma tag_table_nodup : (TAG_TABLE.map Prod.fst).Nodup := by decide

/-- Counterexample to claim C3 as stated: the known code `HEAD` classifies
only in its exact upper-case spelling; the casing variants `Head` and
`head` are classification failures, so matching is not case-insensitive. -/
theorem c3_counterexample :
    gedcom_line_tag_from_str "HEAD" = .ok .Header ∧
    (gedcom_line_tag_from_str "Head").isOk = false ∧
    (gedcom_line_tag_from_str "head").isOk = false := ⟨rfl, rfl, rfl⟩

/-- Claim C3 as amended: classification matches the token case-sensitively
against the fixed table (whose codes contain no lower-case letter); every
table entry classifies to its tag; a token outside the table is accepted
exactly when it is underscore-prefixed (`valid_custom_tag`), becoming
`Custom` with its original casing preserved verbatim; every other token is
a classification failure. -/
theorem c3_amended :
    (∀ s t, gedcom_line_tag_from_str s = .ok t →
      (s, t) ∈ TAG_TABLE ∨ (valid_custom_tag s = true ∧ t = .Custom s)) ∧
    (∀ s, TAG_TABLE.find? (fun p => p.1 = s) = none → valid_custom_tag s = true →
      gedcom_line_tag_from_str s = .ok (.Custom s)) ∧
    (∀ s, TAG_TABLE.find? (fun p => p.1 = s) = none → valid_custom_tag s = false →
      ∃ e, gedcom_line_tag_from_str s = .error e) ∧
    (∀ p ∈ TAG_TABLE, gedcom_line_tag_from_str p.1 = .ok p.2) ∧
    (TAG_TABLE.all (fun p => p.1.data.all (fun c => !(c.isLower))) = true) := by
  refine ⟨?_, ?_, ?_, ?_, by set_option maxRecDepth 8192 in decide⟩
  · intro s t h
    unfold gedcom_line_tag_from_str at h
    cases hf : TAG_TABLE.find? (fun p => p.1 = s) with
    | some p =>
        rw [hf] at h
        cases h
        left
        have hmem := List.mem_of_find?_eq_some hf
        have hpred := List.find?_some hf
        have hps : p.1 = s := by simpa using hpred
        have hp : (s, p.2) = p := by
          cases p
          simp_all
        rw [hp]
        exact hmem
    | none =>
        rw [hf] at h
        by_cases hc : valid_custom_tag s
        · rw [if_pos hc] at h
          cases h
          right
          exact ⟨hc, rfl⟩
        · rw [if_neg hc] at h
          cases h
  · intro s hf hc
    unfold gedcom_line_tag_from_str
    rw [hf, if_pos hc]
  · intro s hf hc
    unfold gedcom_line_tag_from_str
    rw [hf, hc]
    exact ⟨_, rfl⟩
  · intro p hmem
    unfold gedcom_line_tag_from_str
    rw [find?_fst_of_nodup TAG_TABLE p tag_table_nodup hmem]

/-- Witness for C3 (amended) at the custom token `_FOO`. -/
theorem c3_amended_witness :
    gedcom_line_tag_from_str "_FOO" = .ok (.Custom "_FOO") :=
  c3_amended.2.1 "_FOO" rfl rfl

/-- Claim C9 is a code bug: converting a Birth node with no `_PRIM`
sub-child panics (`BirthBuilder::build` unwraps the absent preferred
flag), modelled by `none`; the whole document conversion dies with it. -/
theorem c9_birth_build_panics :
    birth_from_node c9_birth_node = none ∧
    gedcom_to_relation c9_doc = .ok none := ⟨rfl, rfl⟩



/-- Counterexample to claim C1 as stated: the document `"0 HEAD\r\nZ"`
contains a line (`Z`) that the line grammar cannot parse, yet
`parse_gedcom` succeeds on the prefix, and `gedcom_to_relation_json`
produces output derived from that proper prefix instead of an error. -/
theorem c1_counterexample :
    parse_gedcom c1_bad_doc = .ok ['Z'] [⟨0, none, .Header, none⟩] ∧
    (parse_gedcom_line ['Z']).isOk = false ∧
    gedcom_to_relation c1_bad_doc = .ok (some empty_api_response) := ⟨rfl, rfl, rfl⟩

lemma many_lines_aux_cases (fuel : Nat) (cs : List Char) (acc : List GedcomLine)
    (hacc : acc ≠ []) :
    many_gedcom_lines_aux fuel cs acc = .err true ∨
    (∃ rest lines, many_gedcom_lines_aux fuel cs acc = .ok rest lines ∧ lines ≠ [] ∧
      (parse_gedcom_line rest).isOk = false) := by
  induction fuel generalizing cs acc with
  | zero =>
      cases hpl : parse_gedcom_line cs with
      | err f =>
          cases f with
          | true =>
              left
              unfold many_gedcom_lines_aux
              rw [hpl]
          | false =>
              right
              refine ⟨cs, acc.reverse, ?_, by simpa using hacc, by rw [hpl]; rfl⟩
              unfold many_gedcom_lines_aux
              rw [hpl]
      | ok r line =>
          left
          unfold many_gedcom_lines_aux
          rw [hpl]
  | succ fuel ih =>
      cases hpl : parse_gedcom_line cs with
      | err f =>
          cases f with
          | true =>
              left
              unfold many_gedcom_lines_aux
              rw [hpl]
          | false =>
              right
              refine ⟨cs, acc.reverse, ?_, by simpa using hacc, by rw [hpl]; rfl⟩
              unfold many_gedcom_lines_aux
              rw [hpl]
      | ok r line =>
          have := ih r (line :: acc) (by simp)
          unfold many_gedcom_lines_aux
          rw [hpl]
          exact this

lemma parse_gedcom_cases (cs : List Char) :
    (∃ f, parse_gedcom cs = .err f) ∨
    (∃ rest lines, parse_gedcom cs = .ok rest lines ∧ lines ≠ [] ∧
      (parse_gedcom_line rest).isOk = false) := by
  unfold parse_gedcom
  cases hpl : parse_gedcom_line (strip_bom cs) with
  | err f => exact Or.inl ⟨f, rfl⟩
  | ok r line =>
      rcases many_lines_aux_cases (r.length + 1) r [line] (by simp) with h | ⟨rest, lines, h, hne, hfail⟩
      · exact Or.inl ⟨true, h⟩
      · exact Or.inr ⟨rest, lines, h, hne, hfail⟩

/-- Claim C1 as amended: a fatal line failure (invalid level such as "00",
or an unclassifiable tag) aborts the whole parse and
`gedcom_to_relation_json` returns an error with no output; but a line that
fails only recoverably (missing delimiter or terminator, level not
starting with a digit) merely stops `many1`: `parse_gedcom` then succeeds
with the lines parsed so far, the unparseable remainder is discarded, and
output IS produced from that proper prefix. -/
theorem c1_amended (cs : List Char) :
    (∃ f, parse_gedcom cs = .err f ∧
      gedcom_to_relation cs = .error "Could not parse GEDCOM input") ∨
    (∃ rest lines, parse_gedcom cs = .ok rest lines ∧ lines ≠ [] ∧
      (parse_gedcom_line rest).isOk = false ∧
      gedcom_to_relation cs = .ok (api_response_from_tree (gedcom_tree_from lines))) := by
  rcases parse_gedcom_cases cs with ⟨f, h⟩ | ⟨rest, lines, h, hne, hfail⟩
  · left
    refine ⟨f, h, ?_⟩
    unfold gedcom_to_relation
    rw [h]
  · right
    refine ⟨rest, lines, h, hne, hfail, ?_⟩
    unfold gedcom_to_relation
    rw [h]




-- helper lemmas

lemma flatten_forest_append (xs ys : List GedcomTreeNode) :
    flatten_forest (xs ++ ys) = flatten_forest xs ++ flatten_forest ys := by
  induction xs with
  | nil => rfl
  | cons x rest ih => simp [flatten_forest, ih]

lemma children_levels_ok_iff (lv : Nat) (cs : List GedcomTreeNode) :
    children_levels_ok lv cs = true ↔
      ∀ c ∈ cs, c.level = lv + 1 ∧ node_levels_ok c = true := by
  induction cs with
  | nil => simp [children_levels_ok]
  | cons c rest ih =>
      simp only [children_levels_ok, Bool.and_eq_true, ih, List.mem_cons]
      constructor
      · rintro ⟨⟨h1, h2⟩, h3⟩ x (rfl | hx)
        · exact ⟨by simpa using h1, h2⟩
        · exact h3 x hx
      · intro h
        refine ⟨⟨by simpa using (h c (Or.inl rfl)).1, (h c (Or.inl rfl)).2⟩, ?_⟩
        intro x hx
        exact h x (Or.inr hx)

lemma forest_levels_ok_iff (ns : List GedcomTreeNode) :
    forest_levels_ok ns = true ↔ ∀ t ∈ ns, node_levels_ok t = true := by
  induction ns with
  | nil => simp [forest_levels_ok]
  | cons n rest ih =>
      simp only [forest_levels_ok, Bool.and_eq_true, ih, List.mem_cons]
      constructor
      · rintro ⟨h1, h2⟩ x (rfl | hx)
        · exact h1
        · exact h2 x hx
      · intro h
        exact ⟨h n (Or.inl rfl), fun x hx => h x (Or.inr hx)⟩

lemma node_of_line_level (l : GedcomLine) (cs : List GedcomTreeNode) :
    (node_of_line l cs).level = l.level := rfl

lemma node_of_line_ok (l : GedcomLine) (cs : List GedcomTreeNode) :
    node_levels_ok (node_of_line l cs) = children_levels_ok l.level cs.reverse := rfl

lemma flatten_node_of_line (l : GedcomLine) (cs : List GedcomTreeNode) :
    flatten_node (node_of_line l cs) = l :: flatten_forest cs.reverse := rfl

lemma pairwise_head_le (h0 : GedcomTreeNode) (rest : List GedcomTreeNode)
    (hpw : (h0 :: rest).Pairwise (fun a b => b.level ≤ a.level)) :
    ∀ t ∈ h0 :: rest, t.level ≤ h0.level := by
  intro t ht
  rcases List.mem_cons.1 ht with rfl | hm
  · exact le_refl _
  · exact (List.pairwise_cons.1 hpw).1 t hm

lemma pairwise_filter_take (K : Nat) (dc : List GedcomTreeNode)
    (hpw : dc.Pairwise (fun a b => b.level ≤ a.level))
    (hub : ∀ t ∈ dc, t.level ≤ K) :
    dc.filter (fun c => c.level == K) = dc.takeWhile (fun c => c.level == K) ∧
    dc.filter (fun c => !(c.level == K)) = dc.dropWhile (fun c => c.level == K) ∧
    (∀ t ∈ dc.dropWhile (fun c => c.level == K), t.level < K) := by
  induction dc with
  | nil => exact ⟨rfl, rfl, by intro t ht; cases ht⟩
  | cons h rest ih =>
      have hpwr : rest.Pairwise (fun a b => b.level ≤ a.level) :=
        (List.pairwise_cons.1 hpw).2
      have hrle : ∀ t ∈ rest, t.level ≤ h.level := (List.pairwise_cons.1 hpw).1
      cases hh : (h.level == K) with
      | true =>
          have hhK : h.level = K := by simpa using hh
          obtain ⟨ih1, ih2, ih3⟩ := ih hpwr (fun t ht => hub t (List.mem_cons_of_mem h ht))
          refine ⟨?_, ?_, ?_⟩
          · rw [List.filter_cons_of_pos (by simpa using hh),
                List.takeWhile_cons_of_pos (by simpa using hh), ih1]
          · rw [List.filter_cons_of_neg (by simp [hh]),
                List.dropWhile_cons_of_pos (by simpa using hh), ih2]
          · rw [List.dropWhile_cons_of_pos (by simpa using hh)]
            exact ih3
      | false =>
          have hhK : h.level ≠ K := by simpa using hh
          have hhlt : h.level < K := lt_of_le_of_ne (hub h (List.mem_cons_self h rest)) hhK
          have hall : ∀ t ∈ rest, t.level < K := fun t ht =>
            lt_of_le_of_lt (hrle t ht) hhlt
          refine ⟨?_, ?_, ?_⟩
          · rw [List.filter_cons_of_neg (by simpa using hh),
                List.takeWhile_cons_of_neg (by simpa using hh)]
            rw [List.filter_eq_nil_iff.2 ?_]
            intro t ht
            simpa using Nat.ne_of_lt (hall t ht)
          · rw [List.filter_cons_of_pos (by simp [hh]),
                List.dropWhile_cons_of_neg (by simpa using hh)]
            congr 1
            rw [List.filter_eq_self.2 ?_]
            intro t ht
            simpa using Nat.ne_of_lt (hall t ht)
          · rw [List.dropWhile_cons_of_neg (by simpa using hh)]
            intro t ht
            rcases List.mem_cons.1 ht with rfl | hm
            · exact hhlt
            · exact hall t hm


lemma tree_step_inv (lines : List GedcomLine) (l : GedcomLine) (st : TreeBuildState)
    (hinv : tree_inv lines st)
    (hchain : ∀ l2 r2, lines = l2 :: r2 → l2.level ≤ l.level + 1)
    (hle : l.level ≤ 99) :
    tree_inv (l :: lines) (tree_step st l) := by
  obtain ⟨hflat, hch, hnd, hpw, hprev, hhead⟩ := hinv
  by_cases h0 : l.level = 0
  · -- level-0 branch: drain the whole buffer
    have hstep : tree_step st l =
        ⟨st.nodes ++ [node_of_line l st.children], [], l.level⟩ := by
      unfold tree_step
      rw [if_pos h0]
    rw [hstep]
    -- every buffered tree sits at level exactly 1
    have hlev1 : ∀ t ∈ st.children.reverse, t.level = 1 := by
      intro t ht
      cases hdc : st.children.reverse with
      | nil => rw [hdc] at ht; cases ht
      | cons d0 drest =>
          rw [hdc] at ht hpw
          have hd0 : d0.level = st.previous_level := hhead d0 (by rw [hdc]; rfl)
          have hple : st.previous_level ≤ 1 := by
            cases lines with
            | nil =>
                rw [hprev]
                exfalso
                have : st.children = [] := by
                  have := congrArg TreeBuildState.children hprev
                  simpa using this
                rw [this] at hdc
                cases hdc
            | cons l2 rest2 =>
                have hc2 := hchain l2 rest2 rfl
                rw [hprev]
                omega
          have h1t : 1 ≤ t.level := by
            have := hch t (List.mem_reverse.1 (hdc ▸ ht))
            exact this.2
          have hle1 : t.level ≤ d0.level := pairwise_head_le d0 drest hpw t ht
          omega
    have hok : node_levels_ok (node_of_line l st.children) = true := by
      rw [node_of_line_ok, children_levels_ok_iff]
      intro c hc
      refine ⟨by rw [h0, hlev1 c hc], (hch c (List.mem_reverse.1 hc)).1⟩
    refine ⟨?_, ?_, ?_, ?_, ?_, ?_⟩
    · show flatten_forest [].reverse ++
        flatten_forest (st.nodes ++ [node_of_line l st.children]).reverse = l :: lines
      rw [List.reverse_append, List.reverse_singleton]
      show flatten_forest [] ++
        flatten_forest (node_of_line l st.children :: st.nodes.reverse) = l :: lines
      rw [show flatten_forest [] = [] from rfl, List.nil_append]
      show flatten_node (node_of_line l st.children) ++ flatten_forest st.nodes.reverse
        = l :: lines
      rw [flatten_node_of_line]
      simp only [List.cons_append]
      rw [hflat]
    · intro t ht; cases ht
    · intro t ht
      rcases List.mem_append.1 ht with hm | hm
      · exact hnd t hm
      · rcases List.mem_singleton.1 hm with rfl
        exact ⟨hok, h0⟩
    · show List.Pairwise _ ([] : List GedcomTreeNode).reverse
      simp
    · show TreeBuildState.previous_level _ = l.level
      rfl
    · intro t ht
      cases ht
  · -- non-root
    by_cases hlt : l.level < st.previous_level
    · -- collect the direct children at level + 1 from the buffer
      have hstep : tree_step st l =
          ⟨st.nodes,
           st.children.filter (fun c => !(c.level == l.level + 1)) ++
             [node_of_line l (st.children.filter (fun c => c.level == l.level + 1))],
           l.level⟩ := by
        unfold tree_step
        rw [if_neg h0, if_pos hlt]
      rw [hstep]
      have hub : ∀ t ∈ st.children.reverse, t.level ≤ l.level + 1 := by
        intro t ht
        cases hdc : st.children.reverse with
        | nil => rw [hdc] at ht; cases ht
        | cons d0 drest =>
            rw [hdc] at ht hpw
            have hd0 : d0.level = st.previous_level := hhead d0 (by rw [hdc]; rfl)
            have hple : st.previous_level ≤ l.level + 1 := by
              cases lines with
              | nil =>
                  exfalso
                  have : st.children = [] := by
                    have := congrArg TreeBuildState.children hprev
                    simpa using this
                  rw [this] at hdc
                  cases hdc
              | cons l2 rest2 =>
                  rw [hprev]
                  exact hchain l2 rest2 rfl
            have := pairwise_head_le d0 drest hpw t ht
            omega
      obtain ⟨hf1, hf2, hf3⟩ :=
        pairwise_filter_take (l.level + 1) st.children.reverse hpw hub
      have hfr1 : (st.children.filter (fun c => c.level == l.level + 1)).reverse =
          st.children.reverse.takeWhile (fun c => c.level == l.level + 1) := by
        rw [← hf1, List.filter_reverse]
      have hfr2 : (st.children.filter (fun c => !(c.level == l.level + 1))).reverse =
          st.children.reverse.dropWhile (fun c => c.level == l.level + 1) := by
        rw [← hf2, List.filter_reverse]
      have hok : node_levels_ok
          (node_of_line l (st.children.filter (fun c => c.level == l.level + 1))) = true := by
        rw [node_of_line_ok, children_levels_ok_iff]
        intro c hc
        rw [hfr1] at hc
        have hmem : c ∈ st.children.reverse := (List.takeWhile_sublist _).subset hc
        have hpc := List.mem_takeWhile_imp (p := fun (x : GedcomTreeNode) => x.level == l.level + 1) hc
        exact ⟨by simpa using hpc, (hch c (List.mem_reverse.1 hmem)).1⟩
      refine ⟨?_, ?_, ?_, ?_, ?_, ?_⟩
      · show flatten_forest
            ((st.children.filter (fun c => !(c.level == l.level + 1)) ++
              [node_of_line l (st.children.filter (fun c => c.level == l.level + 1))]).reverse) ++
          flatten_forest st.nodes.reverse = l :: lines
        rw [List.reverse_append, List.reverse_singleton]
        show flatten_forest
            (node_of_line l (st.children.filter (fun c => c.level == l.level + 1)) ::
              (st.children.filter (fun c => !(c.level == l.level + 1))).reverse) ++
          flatten_forest st.nodes.reverse = l :: lines
        show (flatten_node (node_of_line l (st.children.filter (fun c => c.level == l.level + 1))) ++
            flatten_forest ((st.children.filter (fun c => !(c.level == l.level + 1))).reverse)) ++
          flatten_forest st.nodes.reverse = l :: lines
        rw [flatten_node_of_line, hfr1, hfr2]
        have : flatten_forest (st.children.reverse.takeWhile (fun c => c.level == l.level + 1)) ++
            flatten_forest (st.children.reverse.dropWhile (fun c => c.level == l.level + 1)) =
            flatten_forest st.children.reverse := by
          rw [← flatten_forest_append, List.takeWhile_append_dropWhile]
        simp only [List.cons_append, List.append_assoc]
        rw [← List.append_assoc, this, hflat]
      · intro t ht
        rcases List.mem_append.1 ht with hm | hm
        · exact hch t (List.mem_of_mem_filter hm)
        · rcases List.mem_singleton.1 hm with rfl
          exact ⟨hok, by rw [node_of_line_level]; omega⟩
      · exact hnd
      · rw [List.reverse_append, List.reverse_singleton]
        show List.Pairwise _
          (node_of_line l (st.children.filter (fun c => c.level == l.level + 1)) ::
            (st.children.filter (fun c => !(c.level == l.level + 1))).reverse)
        rw [List.pairwise_cons]
        constructor
        · intro t ht
          rw [hfr2] at ht
          have := hf3 t ht
          rw [node_of_line_level]
          omega
        · rw [hfr2]
          exact hpw.sublist (List.dropWhile_sublist _)
      · show TreeBuildState.previous_level _ = l.level
        rfl
      · intro t ht
        rw [List.reverse_append, List.reverse_singleton] at ht
        cases ht
        rfl
    · -- sibling or deeper: push a childless node
      have hstep : tree_step st l =
          ⟨st.nodes, st.children ++ [node_of_line l []], l.level⟩ := by
        unfold tree_step
        rw [if_neg h0, if_neg hlt]
      rw [hstep]
      have hprevle : st.previous_level ≤ l.level := Nat.le_of_not_lt hlt
      refine ⟨?_, ?_, ?_, ?_, ?_, ?_⟩
      · show flatten_forest ((st.children ++ [node_of_line l []]).reverse) ++
          flatten_forest st.nodes.reverse = l :: lines
        rw [List.reverse_append, List.reverse_singleton]
        show (flatten_node (node_of_line l []) ++ flatten_forest st.children.reverse) ++
          flatten_forest st.nodes.reverse = l :: lines
        rw [flatten_node_of_line]
        show (l :: flatten_forest ([] : List GedcomTreeNode) ++
            flatten_forest st.children.reverse) ++ flatten_forest st.nodes.reverse = l :: lines
        simp only [flatten_forest, List.cons_append, List.nil_append, List.append_assoc]
        rw [hflat]
      · intro t ht
        rcases List.mem_append.1 ht with hm | hm
        · exact hch t hm
        · rcases List.mem_singleton.1 hm with rfl
          refine ⟨?_, by rw [node_of_line_level]; omega⟩
          rw [node_of_line_ok]
          rfl
      · exact hnd
      · rw [List.reverse_append, List.reverse_singleton]
        show List.Pairwise _ (node_of_line l [] :: st.children.reverse)
        rw [List.pairwise_cons]
        constructor
        · intro t ht
          cases hdc : st.children.reverse with
          | nil => rw [hdc] at ht; cases ht
          | cons d0 drest =>
              rw [hdc] at ht hpw
              have hd0 : d0.level = st.previous_level := hhead d0 (by rw [hdc]; rfl)
              have := pairwise_head_le d0 drest hpw t ht
              rw [node_of_line_level]
              omega
        · exact hpw
      · show TreeBuildState.previous_level _ = l.level
        rfl
      · intro t ht
        rw [List.reverse_append, List.reverse_singleton] at ht
        cases ht
        rfl


lemma levels_chain_ok_tail (l : GedcomLine) (rest : List GedcomLine)
    (h : levels_chain_ok (l :: rest) = true) : levels_chain_ok rest = true := by
  cases rest with
  | nil => rfl
  | cons l2 r2 =>
      unfold levels_chain_ok at h
      rw [Bool.and_eq_true] at h
      exact h.2

lemma tree_run_inv (lines : List GedcomLine)
    (hchain : levels_chain_ok lines = true)
    (hle : lines.all (fun x => decide (x.level ≤ 99)) = true) :
    tree_inv lines (tree_run lines) := by
  induction lines with
  | nil =>
      refine ⟨rfl, ?_, ?_, ?_, rfl, ?_⟩
      · intro t ht; cases ht
      · intro t ht; cases ht
      · show List.Pairwise _ ([] : List GedcomTreeNode).reverse
        simp
      · intro t ht; cases ht
  | cons l rest ih =>
      have hc2 : levels_chain_ok rest = true := levels_chain_ok_tail l rest hchain
      rw [List.all_cons, Bool.and_eq_true] at hle
      have hl : l.level ≤ 99 := by simpa using hle.1
      have hchainrel : ∀ l2 r2, rest = l2 :: r2 → l2.level ≤ l.level + 1 := by
        intro l2 r2 heq
        subst heq
        unfold levels_chain_ok at hchain
        rw [Bool.and_eq_true] at hchain
        simpa using hchain.1
      exact tree_step_inv rest l (tree_run rest) (ih hc2 hle.2) hchainrel hl

/-- Counterexample to claim C2 as stated: the two line records
`[level 0, level 2]` are each valid lines, yet the builder attaches the
level-2 record directly as a child of the level-0 root, violating the
parent-plus-one invariant. -/
theorem c2_counterexample :
    forest_levels_ok (gedcom_tree_from c2_bad_lines) = false := rfl

/-- Claim C2 as amended: for every sequence of valid line records whose
levels are well nested (the first record is at level 0 and each record's
level exceeds its predecessor's by at most one), the builder produces a
forest in which every node's immediate children sit exactly one level
below it, every root is at level 0, and the pre-order flattening of the
forest reproduces the input sequence exactly. -/
theorem c2_amended (lines : List GedcomLine) (h : doc_well_formed lines = true) :
    flatten_forest (gedcom_tree_from lines) = lines ∧
    forest_levels_ok (gedcom_tree_from lines) = true ∧
    ∀ t ∈ gedcom_tree_from lines, t.level = 0 := by
  cases lines with
  | nil =>
      exact ⟨rfl, rfl, fun t ht => by cases ht⟩
  | cons l rest =>
      unfold doc_well_formed at h
      rw [Bool.and_eq_true, Bool.and_eq_true] at h
      obtain ⟨⟨hl0, hchain⟩, hall⟩ := h
      have h0 : l.level = 0 := by simpa using hl0
      obtain ⟨hflat, hch, hnd, hpw, hprev, hhead⟩ := tree_run_inv (l :: rest) hchain hall
      have hempty : (tree_run (l :: rest)).children = [] := by
        cases hdc : (tree_run (l :: rest)).children.reverse with
        | nil => simpa using congrArg List.reverse hdc
        | cons d0 dr =>
            exfalso
            have hd0 := hhead d0 (by rw [hdc]; rfl)
            have hmem : d0 ∈ (tree_run (l :: rest)).children := by
              rw [← List.mem_reverse, hdc]
              exact List.mem_cons_self _ _
            have h1 : 1 ≤ d0.level := (hch d0 hmem).2
            rw [hprev, h0] at hd0
            omega
      refine ⟨?_, ?_, ?_⟩
      · show flatten_forest (tree_run (l :: rest)).nodes.reverse = l :: rest
        rw [hempty] at hflat
        simpa using hflat
      · rw [forest_levels_ok_iff]
        intro t ht
        exact (hnd t (List.mem_reverse.1 ht)).1
      · intro t ht
        exact (hnd t (List.mem_reverse.1 ht)).2

/-- Witness for C2 (amended) at a three-line well-nested document. -/
theorem c2_amended_witness :
    flatten_forest (gedcom_tree_from c2_wf_lines) = c2_wf_lines ∧
    forest_levels_ok (gedcom_tree_from c2_wf_lines) = true :=
  ⟨(c2_amended c2_wf_lines (by decide)).1, (c2_amended c2_wf_lines (by decide)).2.1⟩

lemma tag_is_change_eq_false {t : GedcomLineTag} (h : ¬ t = .Change) :
    tag_is_change t = false := by
  cases t <;> first | rfl | exact absurd rfl h

lemma tag_is_sex_eq_false {t : GedcomLineTag} (h : ¬ t = .Sex) :
    tag_is_sex t = false := by
  cases t <;> first | rfl | exact absurd rfl h

lemma tag_is_husband_eq_false {t : GedcomLineTag} (h : ¬ t = .Husband) :
    tag_is_husband t = false := by
  cases t <;> first | rfl | exact absurd rfl h

lemma tag_is_wife_eq_false {t : GedcomLineTag} (h : ¬ t = .Wife) :
    tag_is_wife t = false := by
  cases t <;> first | rfl | exact absurd rfl h

lemma lookup_mem {m : List (String × Nat)} {x : String} {v : Nat}
    (h : m.lookup x = some v) : (x, v) ∈ m := by
  induction m with
  | nil => cases h
  | cons a rest ih =>
      rw [List.lookup] at h
      split at h
      · next heq =>
          injection h with h
          subst h
          have hx : x = a.1 := eq_of_beq heq
          rw [hx]
          exact List.mem_cons_self a rest
      · exact List.mem_cons_of_mem _ (ih h)

lemma child_row_of_eq_none {m : List (String × Nat)} {famid : Nat}
    {c : GedcomTreeNode} (h : ¬ c.tag = .Child) :
    child_row_of m famid c = none := by
  unfold child_row_of
  cases htag : c.tag <;> first | rfl | exact absurd htag h

lemma family_child_step_rows (m : List (String × Nat)) (famid : Nat)
    (acc : List ChildRow × FamilyBuilder) (c : GedcomTreeNode) :
    (family_child_step m famid acc c).1 =
      acc.1 ++ (child_row_of m famid c).toList := by
  unfold family_child_step
  split
  · next heq => split <;> simp [child_row_of, heq]
  · next heq =>
      split
      · next hlv =>
          split
          · next hl => simp [child_row_of, heq, hlv, hl]
          · next hl => simp [child_row_of, heq, hlv, hl]
      · next hlv => simp [child_row_of, heq, hlv]
  · next heq =>
      split
      · next hlv => split <;> simp [child_row_of, heq]
      · simp [child_row_of, heq]
  · next heq =>
      split
      · next hlv => split <;> simp [child_row_of, heq]
      · simp [child_row_of, heq]
  · next t h1 h2 h3 h4 =>
      rw [child_row_of_eq_none h2]
      simp

lemma family_scan_rows (m : List (String × Nat)) (famid : Nat) :
    ∀ (cs : List GedcomTreeNode) (rows0 : List ChildRow) (b0 : FamilyBuilder),
      (cs.foldl (family_child_step m famid) (rows0, b0)).1 =
        rows0 ++ cs.filterMap (child_row_of m famid) := by
  intro cs
  induction cs with
  | nil => intro rows0 b0; simp
  | cons c rest ih =>
      intro rows0 b0
      rw [List.foldl_cons]
      have h2 : (List.foldl (family_child_step m famid)
            (family_child_step m famid (rows0, b0) c) rest).1 =
          (family_child_step m famid (rows0, b0) c).1 ++
            rest.filterMap (child_row_of m famid) := ih _ _
      rw [h2, family_child_step_rows, List.filterMap_cons]
      cases hc : child_row_of m famid c <;> simp [List.append_assoc]

lemma family_child_step_builder (m : List (String × Nat)) (famid : Nat)
    (acc : List ChildRow × FamilyBuilder) (c : GedcomTreeNode) :
    (family_child_step m famid acc c).2.id = acc.2.id ∧
    (family_child_step m famid acc c).2.date_created.isSome =
      (acc.2.date_created.isSome || (tag_is_change c.tag && change_ok c)) ∧
    (family_child_step m famid acc c).2.father_id.isSome =
      (acc.2.father_id.isSome || (tag_is_husband c.tag && ptr_resolves m c)) ∧
    (family_child_step m famid acc c).2.mother_id.isSome =
      (acc.2.mother_id.isSome || (tag_is_wife c.tag && ptr_resolves m c)) ∧
    (∀ v, (family_child_step m famid acc c).2.father_id = some v →
      acc.2.father_id = some v ∨ ∃ pr ∈ m, pr.2 = v) ∧
    (∀ v, (family_child_step m famid acc c).2.mother_id = some v →
      acc.2.mother_id = some v ∨ ∃ pr ∈ m, pr.2 = v) := by
  unfold family_child_step
  split
  · next heq =>
      split
      · next dt hdt =>
          refine ⟨rfl, ?_, by simp [tag_is_husband, heq], by simp [tag_is_wife, heq],
                  fun v hv => Or.inl hv, fun v hv => Or.inl hv⟩
          simp [heq, tag_is_change, change_ok, hdt, PResult.isOk, Except.isOk, Except.toBool]
      · next e hdt =>
          refine ⟨rfl, ?_, by simp [tag_is_husband, heq], by simp [tag_is_wife, heq],
                  fun v hv => Or.inl hv, fun v hv => Or.inl hv⟩
          simp [heq, tag_is_change, change_ok, hdt, Except.isOk, Except.toBool]
  · next heq =>
      have hch : tag_is_change c.tag = false := by rw [heq]; rfl
      have hh : tag_is_husband c.tag = false := by rw [heq]; rfl
      have hw : tag_is_wife c.tag = false := by rw [heq]; rfl
      split
      · next hlv =>
          split
          · next hl =>
              exact ⟨rfl, by simp [hch], by simp [hh], by simp [hw],
                     fun v hv => Or.inl hv, fun v hv => Or.inl hv⟩
          · next hl =>
              exact ⟨rfl, by simp [hch], by simp [hh], by simp [hw],
                     fun v hv => Or.inl hv, fun v hv => Or.inl hv⟩
      · next hlv =>
          exact ⟨rfl, by simp [hch], by simp [hh], by simp [hw],
                 fun v hv => Or.inl hv, fun v hv => Or.inl hv⟩
  · next heq =>
      have hch : tag_is_change c.tag = false := by rw [heq]; rfl
      have hw : tag_is_wife c.tag = false := by rw [heq]; rfl
      split
      · next hlv =>
          split
          · next pid hl =>
              refine ⟨rfl, by simp [hch], ?_, by simp [hw],
                      ?_, fun v hv => Or.inl hv⟩
              · simp [heq, tag_is_husband, ptr_resolves, hlv, hl]
              · intro v hv
                simp at hv
                exact Or.inr ⟨_, lookup_mem hl, hv ▸ rfl⟩
          · next hl =>
              refine ⟨rfl, by simp [hch], ?_, by simp [hw],
                      fun v hv => Or.inl hv, fun v hv => Or.inl hv⟩
              simp [heq, tag_is_husband, ptr_resolves, hlv, hl]
      · next hlv =>
          refine ⟨rfl, by simp [hch], ?_, by simp [hw],
                  fun v hv => Or.inl hv, fun v hv => Or.inl hv⟩
          simp [heq, tag_is_husband, ptr_resolves, hlv]
  · next heq =>
      have hch : tag_is_change c.tag = false := by rw [heq]; rfl
      have hh : tag_is_husband c.tag = false := by rw [heq]; rfl
      split
      · next hlv =>
          split
          · next pid hl =>
              refine ⟨rfl, by simp [hch], by simp [hh], ?_,
                      fun v hv => Or.inl hv, ?_⟩
              · simp [heq, tag_is_wife, ptr_resolves, hlv, hl]
              · intro v hv
                simp at hv
                exact Or.inr ⟨_, lookup_mem hl, hv ▸ rfl⟩
          · next hl =>
              refine ⟨rfl, by simp [hch], by simp [hh], ?_,
                      fun v hv => Or.inl hv, fun v hv => Or.inl hv⟩
              simp [heq, tag_is_wife, ptr_resolves, hlv, hl]
      · next hlv =>
          refine ⟨rfl, by simp [hch], by simp [hh], ?_,
                  fun v hv => Or.inl hv, fun v hv => Or.inl hv⟩
          simp [heq, tag_is_wife, ptr_resolves, hlv]
  · next t h1 h2 h3 h4 =>
      exact ⟨rfl, by simp [tag_is_change_eq_false h1],
             by simp [tag_is_husband_eq_false h3],
             by simp [tag_is_wife_eq_false h4],
             fun v hv => Or.inl hv, fun v hv => Or.inl hv⟩

lemma family_scan_builder (m : List (String × Nat)) (famid : Nat) :
    ∀ (cs : List GedcomTreeNode) (p : List ChildRow × FamilyBuilder),
      (cs.foldl (family_child_step m famid) p).2.id = p.2.id ∧
      (cs.foldl (family_child_step m famid) p).2.date_created.isSome =
        (p.2.date_created.isSome ||
          cs.any (fun c => tag_is_change c.tag && change_ok c)) ∧
      (cs.foldl (family_child_step m famid) p).2.father_id.isSome =
        (p.2.father_id.isSome ||
          cs.any (fun c => tag_is_husband c.tag && ptr_resolves m c)) ∧
      (cs.foldl (family_child_step m famid) p).2.mother_id.isSome =
        (p.2.mother_id.isSome ||
          cs.any (fun c => tag_is_wife c.tag && ptr_resolves m c)) ∧
      (∀ v, (cs.foldl (family_child_step m famid) p).2.father_id = some v →
        p.2.father_id = some v ∨ ∃ pr ∈ m, pr.2 = v) ∧
      (∀ v, (cs.foldl (family_child_step m famid) p).2.mother_id = some v →
        p.2.mother_id = some v ∨ ∃ pr ∈ m, pr.2 = v) := by
  intro cs
  induction cs with
  | nil =>
      intro p
      exact ⟨rfl, by simp, by simp, by simp,
             fun v hv => Or.inl hv, fun v hv => Or.inl hv⟩
  | cons c rest ih =>
      intro p
      rw [List.foldl_cons]
      obtain ⟨s1, s2, s3, s4, s5, s6⟩ := family_child_step_builder m famid p c
      obtain ⟨i1, i2, i3, i4, i5, i6⟩ := ih (family_child_step m famid p c)
      refine ⟨by rw [i1, s1], ?_, ?_, ?_, ?_, ?_⟩
      · rw [i2, s2, List.any_cons, Bool.or_assoc]
      · rw [i3, s3, List.any_cons, Bool.or_assoc]
      · rw [i4, s4, List.any_cons, Bool.or_assoc]
      · intro v hv
        rcases i5 v hv with h | h
        · exact s5 v h
        · exact Or.inr h
      · intro v hv
        rcases i6 v hv with h | h
        · exact s6 v h
        · exact Or.inr h

lemma family_build_isSome (b : FamilyBuilder) :
    (family_build b).isSome =
      (b.date_created.isSome && b.father_id.isSome && b.id.isSome &&
        b.mother_id.isSome) := by
  rcases b with ⟨dc, f, i, mo⟩
  cases dc <;> cases f <;> cases i <;> cases mo <;> rfl

lemma family_build_fields {b : FamilyBuilder} {f : Family}
    (h : family_build b = some f) :
    b.father_id = some f.father_id ∧ b.mother_id = some f.mother_id := by
  rcases b with ⟨dc, fa, i, mo⟩
  cases dc <;> cases fa <;> cases i <;> cases mo <;>
    first
      | exact Option.noConfusion h
      | (injection h with h; subst h; exact ⟨rfl, rfl⟩)

lemma family_branch_rows (m : List (String × Nat)) (x : String)
    (node : GedcomTreeNode) :
    (family_branch m x node).1 =
      node.children.filterMap
        (child_row_of m (FAMILY_ID_SEED + (xref_id_to_numeric_id x).getD 0)) := by
  unfold family_branch
  rw [family_scan_rows]
  simp

lemma family_branch_isSome (m : List (String × Nat)) (x : String)
    (node : GedcomTreeNode) :
    (family_branch m x node).2.isSome =
      (has_ok_change node && husb_resolves m node && wife_resolves m node) := by
  unfold family_branch
  rw [family_build_isSome]
  obtain ⟨s1, s2, s3, s4, _, _⟩ :=
    family_scan_builder m (FAMILY_ID_SEED + (xref_id_to_numeric_id x).getD 0)
      node.children
      ([], { id := some (FAMILY_ID_SEED + (xref_id_to_numeric_id x).getD 0) })
  rw [s1, s2, s3, s4]
  unfold has_ok_change husb_resolves wife_resolves
  simp [Bool.and_comm, Bool.and_assoc, Bool.and_left_comm]

lemma family_branch_parents {m : List (String × Nat)} {x : String}
    {node : GedcomTreeNode} {f : Family}
    (h : (family_branch m x node).2 = some f) :
    (∃ pr ∈ m, pr.2 = f.father_id) ∧ (∃ pr ∈ m, pr.2 = f.mother_id) := by
  unfold family_branch at h
  obtain ⟨hfa, hmo⟩ := family_build_fields h
  obtain ⟨_, _, _, _, s5, s6⟩ :=
    family_scan_builder m (FAMILY_ID_SEED + (xref_id_to_numeric_id x).getD 0)
      node.children
      ([], { id := some (FAMILY_ID_SEED + (xref_id_to_numeric_id x).getD 0) })
  constructor
  · rcases s5 _ hfa with h' | h'
    · exact Option.noConfusion h'
    · exact h'
  · rcases s6 _ hmo with h' | h'
    · exact Option.noConfusion h'
    · exact h'

lemma family_branch_row_shape {m : List (String × Nat)} {x : String}
    {node : GedcomTreeNode} {r : ChildRow}
    (h : r ∈ (family_branch m x node).1) :
    r.family_id = FAMILY_ID_SEED + (xref_id_to_numeric_id x).getD 0 ∧
    r.id = CHILD_ID_SEED + r.child_id ∧
    (∃ pr ∈ m, pr.2 = r.child_id) ∧
    r.relationship_to_father = 1 ∧ r.relationship_to_mother = 1 := by
  rw [family_branch_rows] at h
  obtain ⟨c, hc, hrow⟩ := List.mem_filterMap.mp h
  unfold child_row_of at hrow
  split at hrow
  · split at hrow
    · split at hrow
      · next pid hl =>
          injection hrow with hrow
          subst hrow
          exact ⟨rfl, rfl, ⟨_, lookup_mem hl, rfl⟩, rfl, rfl⟩
      · exact Option.noConfusion hrow
    · exact Option.noConfusion hrow
  · exact Option.noConfusion hrow

lemma person_build_ok_fields {b : PersonBuilder} {p : Person}
    (h : person_build b = .ok p) :
    b.date_created.isSome = true ∧ b.gender.isSome = true ∧
      b.id.isSome = true := by
  rcases b with ⟨dc, fc, g, i, ns⟩
  cases dc <;> cases g <;> cases i <;>
    first | exact Except.noConfusion h | exact ⟨rfl, rfl, rfl⟩

lemma person_build_error_fields {b : PersonBuilder} {e : String}
    (h : person_build b = .error e) :
    b.date_created.isSome = false ∨ b.gender.isSome = false ∨
      b.id.isSome = false := by
  rcases b with ⟨dc, fc, g, i, ns⟩
  cases dc <;> cases g <;> cases i <;>
    first
      | exact Or.inl rfl
      | exact Or.inr (Or.inl rfl)
      | exact Or.inr (Or.inr rfl)
      | exact Except.noConfusion h

lemma pcf_ok_char :
    ∀ (cs : List GedcomTreeNode) (b b2 : PersonBuilder),
      person_children_fold cs b = some (.ok b2) →
      b2.id = b.id ∧
      b2.gender.isSome =
        (b.gender.isSome || cs.any (fun c => tag_is_sex c.tag)) ∧
      b2.date_created.isSome =
        (b.date_created.isSome || cs.any (fun c => tag_is_change c.tag)) ∧
      cs.all (fun c => !tag_is_change c.tag || change_ok c) = true := by
  intro cs
  induction cs with
  | nil =>
      intro b b2 h
      rw [person_children_fold] at h
      injection h with h
      injection h with h
      subst h
      exact ⟨rfl, by simp, by simp, rfl⟩
  | cons child rest ih =>
      intro b b2 h
      rw [person_children_fold] at h
      split at h
      · next heq =>
          split at h
          · exact Option.noConfusion h
          · next birth hb =>
              obtain ⟨i1, i2, i3, i4⟩ := ih _ _ h
              refine ⟨i1, ?_, ?_, ?_⟩
              · rw [i2]; simp [List.any_cons, heq, tag_is_sex]
              · rw [i3]; simp [List.any_cons, heq, tag_is_change]
              · rw [List.all_cons, i4, Bool.and_true]
                have hchg : tag_is_change child.tag = false := by rw [heq]; rfl
                rw [hchg]
                rfl
      · next heq =>
          split at h
          · next e hdt =>
              injection h with h
              exact Except.noConfusion h
          · next dt hdt =>
              obtain ⟨i1, i2, i3, i4⟩ := ih _ _ h
              refine ⟨i1, ?_, ?_, ?_⟩
              · rw [i2]; simp [List.any_cons, heq, tag_is_sex]
              · rw [i3]; simp [List.any_cons, heq, tag_is_change]
              · rw [List.all_cons, i4, Bool.and_true]
                have hchg : tag_is_change child.tag = true := by rw [heq]; rfl
                have hco : change_ok child = true := by
                  unfold change_ok
                  rw [hdt]
                  rfl
                rw [hchg, hco]
                rfl
      · next heq =>
          obtain ⟨i1, i2, i3, i4⟩ := ih _ _ h
          refine ⟨i1, ?_, ?_, ?_⟩
          · rw [i2]; simp [List.any_cons, heq, tag_is_sex]
          · rw [i3]; simp [List.any_cons, heq, tag_is_change]
          · rw [List.all_cons, i4, Bool.and_true]
            have hchg : tag_is_change child.tag = false := by rw [heq]; rfl
            rw [hchg]
            rfl
      · next heq =>
          obtain ⟨i1, i2, i3, i4⟩ := ih _ _ h
          refine ⟨i1, ?_, ?_, ?_⟩
          · rw [i2]; simp [List.any_cons, heq, tag_is_sex]
          · rw [i3]; simp [List.any_cons, heq, tag_is_change]
          · rw [List.all_cons, i4, Bool.and_true]
            have hchg : tag_is_change child.tag = false := by rw [heq]; rfl
            rw [hchg]
            rfl
      · next t h1 h2 h3 h4 =>
          obtain ⟨i1, i2, i3, i4⟩ := ih _ _ h
          refine ⟨i1, ?_, ?_, ?_⟩
          · rw [i2]; simp [List.any_cons, tag_is_sex_eq_false h3]
          · rw [i3]; simp [List.any_cons, tag_is_change_eq_false h2]
          · rw [List.all_cons, i4, Bool.and_true, tag_is_change_eq_false h2]
            rfl

lemma pcf_error_char :
    ∀ (cs : List GedcomTreeNode) (b : PersonBuilder) (e : String),
      person_children_fold cs b = some (.error e) →
      cs.all (fun c => !tag_is_change c.tag || change_ok c) = false := by
  intro cs
  induction cs with
  | nil =>
      intro b e h
      rw [person_children_fold] at h
      injection h with h
      exact Except.noConfusion h
  | cons child rest ih =>
      intro b e h
      rw [person_children_fold] at h
      split at h
      · next heq =>
          split at h
          · exact Option.noConfusion h
          · next birth hb => rw [List.all_cons, ih _ _ h, Bool.and_false]
      · next heq =>
          split at h
          · next e' hdt =>
              have hchg : tag_is_change child.tag = true := by rw [heq]; rfl
              have hco : change_ok child = false := by
                unfold change_ok
                rw [hdt]
                rfl
              rw [List.all_cons, hchg, hco]
              rfl
          · next dt hdt => rw [List.all_cons, ih _ _ h, Bool.and_false]
      · next heq => rw [List.all_cons, ih _ _ h, Bool.and_false]
      · next heq => rw [List.all_cons, ih _ _ h, Bool.and_false]
      · next t h1 h2 h3 h4 => rw [List.all_cons, ih _ _ h, Bool.and_false]

lemma node_person_eq_none_of_ne {n : GedcomTreeNode}
    (h : ¬ n.tag = .Individual) : node_person n = none := by
  unfold node_person
  cases htag : n.tag <;> first | rfl | exact absurd htag h

lemma person_accepted_char (node : GedcomTreeNode) (x : String)
    (hx : node.xref_id = some x) (hnp : ¬ person_try_from node = none) :
    person_accepted node = (has_sex_child node && timestamp_derivable node) := by
  unfold person_accepted
  unfold person_try_from at hnp ⊢
  rw [hx] at hnp ⊢
  dsimp only at hnp ⊢
  cases hpcf : person_children_fold node.children
      { id := some ((xref_id_to_numeric_id x).getD 0) } with
  | none => rw [hpcf] at hnp; exact absurd rfl hnp
  | some r =>
      cases r with
      | error e =>
          have hall := pcf_error_char _ _ _ hpcf
          unfold timestamp_derivable
          rw [hall]
          simp
      | ok b2 =>
          obtain ⟨i1, i2, i3, i4⟩ := pcf_ok_char _ _ _ hpcf
          simp only [Option.isSome_none, Bool.false_or, Option.isSome_some]
            at i2 i3
          dsimp only
          cases hpb : person_build b2 with
          | ok p =>
              show true = (has_sex_child node && timestamp_derivable node)
              obtain ⟨f1, f2, f3⟩ := person_build_ok_fields hpb
              rw [i2] at f2
              rw [i3] at f1
              unfold has_sex_child timestamp_derivable
              rw [f2, f1, i4]
              rfl
          | error e =>
              show false = (has_sex_child node && timestamp_derivable node)
              rcases person_build_error_fields hpb with f | f | f
              · rw [i3] at f
                unfold timestamp_derivable
                rw [f]
                simp
              · rw [i2] at f
                unfold has_sex_child
                rw [f]
                simp
              · rw [i1] at f
                simp at f

lemma node_person_accepted {node : GedcomTreeNode} {x : String}
    (htag : node.tag = .Individual) (hx : node.xref_id = some x) :
    (node_person node).isSome = person_accepted node := by
  unfold node_person person_accepted
  rw [htag, hx]
  cases hptf : person_try_from node with
  | none => rfl
  | some r => cases r with
      | ok p => rfl
      | error e => rfl

lemma api_step_family (acc : ApiAcc) (node : GedcomTreeNode) (x : String)
    (htag : node.tag = .Family) (hx : node.xref_id = some x) :
    api_step acc node =
      some { acc with
              childs :=
                acc.childs ++ (family_branch acc.persons_id_map x node).1,
              familys :=
                acc.familys ++
                  (family_branch acc.persons_id_map x node).2.toList } := by
  unfold api_step
  rw [htag, hx]

lemma api_step_persons {acc : ApiAcc} {n : GedcomTreeNode} {acc2 : ApiAcc}
    (h : api_step acc n = some acc2) :
    acc2.persons = acc.persons ++ (node_person n).toList ∧
    (n.tag = .Individual → n.xref_id.isSome = true →
      ¬ person_try_from n = none) := by
  unfold api_step at h
  split at h
  · next heq =>
      split at h
      · next x hx =>
          split at h
          · exact Option.noConfusion h
          · next e hp =>
              injection h with h
              subst h
              refine ⟨?_, fun _ _ => by rw [hp]; exact fun hh => Option.noConfusion hh⟩
              unfold node_person
              rw [heq, hx, hp]
              simp
          · next p hp =>
              injection h with h
              subst h
              refine ⟨?_, fun _ _ => by rw [hp]; exact fun hh => Option.noConfusion hh⟩
              unfold node_person
              rw [heq, hx, hp]
              simp
      · next hx =>
          injection h with h
          subst h
          refine ⟨?_, fun _ hxs => by rw [hx] at hxs; exact Bool.noConfusion hxs⟩
          unfold node_person
          rw [heq, hx]
          simp
  · next heq =>
      split at h
      · next x hx =>
          injection h with h
          subst h
          refine ⟨?_, fun hind _ => ?_⟩
          · unfold node_person
            rw [heq]
            simp
          · rw [heq] at hind
            exact GedcomLineTag.noConfusion hind
      · next hx =>
          injection h with h
          subst h
          refine ⟨?_, fun hind _ => ?_⟩
          · unfold node_person
            rw [heq]
            simp
          · rw [heq] at hind
            exact GedcomLineTag.noConfusion hind
  · next t h1 h2 =>
      injection h with h
      subst h
      refine ⟨?_, fun hind _ => absurd hind h1⟩
      rw [node_person_eq_none_of_ne h1]
      simp

lemma api_step_extends {acc : ApiAcc} {n : GedcomTreeNode} {acc2 : ApiAcc}
    (h : api_step acc n = some acc2) :
    (∀ p ∈ acc.persons, p ∈ acc2.persons) ∧
    (∀ c ∈ acc.childs, c ∈ acc2.childs) ∧
    (∀ f ∈ acc.familys, f ∈ acc2.familys) := by
  unfold api_step at h
  split at h
  · next heq =>
      split at h
      · next x hx =>
          split at h
          · exact Option.noConfusion h
          · next e hp =>
              injection h with h
              subst h
              exact ⟨fun p hp => hp, fun c hc => hc, fun f hf => hf⟩
          · next p hp =>
              injection h with h
              subst h
              exact ⟨fun q hq => List.mem_append_left _ hq,
                     fun c hc => hc, fun f hf => hf⟩
      · next hx =>
          injection h with h
          subst h
          exact ⟨fun p hp => hp, fun c hc => hc, fun f hf => hf⟩
  · next heq =>
      split at h
      · next x hx =>
          injection h with h
          subst h
          exact ⟨fun p hp => hp, fun c hc => List.mem_append_left _ hc,
                 fun f hf => List.mem_append_left _ hf⟩
      · next hx =>
          injection h with h
          subst h
          exact ⟨fun p hp => hp, fun c hc => hc, fun f hf => hf⟩
  · next t h1 h2 =>
      injection h with h
      subst h
      exact ⟨fun p hp => hp, fun c hc => hc, fun f hf => hf⟩

lemma api_fold_persons :
    ∀ (ns : List GedcomTreeNode) (acc res : ApiAcc),
      api_fold ns acc = some res →
      res.persons = acc.persons ++ ns.filterMap node_person ∧
      (∀ n ∈ ns, n.tag = .Individual → n.xref_id.isSome = true →
        ¬ person_try_from n = none) := by
  intro ns
  induction ns with
  | nil =>
      intro acc res h
      rw [api_fold] at h
      injection h with h
      subst h
      exact ⟨by simp, fun n hn => absurd hn (List.not_mem_nil n)⟩
  | cons n rest ih =>
      intro acc res h
      rw [api_fold] at h
      cases hstep : api_step acc n with
      | none => rw [hstep] at h; exact Option.noConfusion h
      | some acc2 =>
          rw [hstep] at h
          obtain ⟨ip, imem⟩ := ih acc2 res h
          obtain ⟨sp, snp⟩ := api_step_persons hstep
          refine ⟨?_, ?_⟩
          · rw [ip, sp, List.filterMap_cons]
            cases hc : node_person n <;> simp [List.append_assoc]
          · intro n' hn'
            rcases List.mem_cons.mp hn' with rfl | hn'
            · exact snp
            · exact imem n' hn'

lemma api_fold_extends :
    ∀ (ns : List GedcomTreeNode) (acc res : ApiAcc),
      api_fold ns acc = some res →
      (∀ p ∈ acc.persons, p ∈ res.persons) ∧
      (∀ c ∈ acc.childs, c ∈ res.childs) ∧
      (∀ f ∈ acc.familys, f ∈ res.familys) := by
  intro ns
  induction ns with
  | nil =>
      intro acc res h
      rw [api_fold] at h
      injection h with h
      subst h
      exact ⟨fun p hp => hp, fun c hc => hc, fun f hf => hf⟩
  | cons n rest ih =>
      intro acc res h
      rw [api_fold] at h
      cases hstep : api_step acc n with
      | none => rw [hstep] at h; exact Option.noConfusion h
      | some acc2 =>
          rw [hstep] at h
          obtain ⟨ip, ic, ifa⟩ := ih acc2 res h
          obtain ⟨sp, sc, sf⟩ := api_step_extends hstep
          exact ⟨fun p hp => ip p (sp p hp), fun c hc => ic c (sc c hc),
                 fun f hf => ifa f (sf f hf)⟩

lemma api_fold_append :
    ∀ (xs : List GedcomTreeNode) (ys : List GedcomTreeNode)
      (acc acc2 : ApiAcc),
      api_fold xs acc = some acc2 →
      api_fold (xs ++ ys) acc = api_fold ys acc2 := by
  intro xs
  induction xs with
  | nil =>
      intro ys acc acc2 h
      rw [api_fold] at h
      injection h with h
      subst h
      rfl
  | cons n rest ih =>
      intro ys acc acc2 h
      rw [api_fold] at h
      rw [List.cons_append, api_fold]
      cases hstep : api_step acc n with
      | none => rw [hstep] at h; exact Option.noConfusion h
      | some a2 =>
          rw [hstep] at h
          exact ih ys a2 acc2 h

lemma api_step_integrity {acc : ApiAcc} {n : GedcomTreeNode} {acc2 : ApiAcc}
    (h : api_step acc n = some acc2) (hi : acc_integrity acc) :
    acc_integrity acc2 := by
  obtain ⟨him, hic, hif⟩ := hi
  unfold api_step at h
  split at h
  · next heq =>
      split at h
      · next x hx =>
          split at h
          · exact Option.noConfusion h
          · next e hp =>
              injection h with h
              subst h
              exact ⟨him, hic, hif⟩
          · next p hp =>
              injection h with h
              subst h
              refine ⟨?_, ?_, ?_⟩
              · intro pr hpr
                rcases List.mem_cons.mp hpr with rfl | hpr
                · exact ⟨p, List.mem_append_right _ (List.mem_singleton.mpr rfl),
                         rfl⟩
                · obtain ⟨q, hq, hqe⟩ := him pr hpr
                  exact ⟨q, List.mem_append_left _ hq, hqe⟩
              · intro c hc
                obtain ⟨q, hq, hqe⟩ := hic c hc
                exact ⟨q, List.mem_append_left _ hq, hqe⟩
              · intro f hf
                obtain ⟨⟨q, hq, hqe⟩, ⟨q2, hq2, hqe2⟩⟩ := hif f hf
                exact ⟨⟨q, List.mem_append_left _ hq, hqe⟩,
                       ⟨q2, List.mem_append_left _ hq2, hqe2⟩⟩
      · next hx =>
          injection h with h
          subst h
          exact ⟨him, hic, hif⟩
  · next heq =>
      split at h
      · next x hx =>
          injection h with h
          subst h
          refine ⟨him, ?_, ?_⟩
          · intro c hc
            rcases List.mem_append.mp hc with hc | hc
            · exact hic c hc
            · obtain ⟨_, _, ⟨pr, hpr, hpre⟩, _, _⟩ :=
                family_branch_row_shape hc
              obtain ⟨q, hq, hqe⟩ := him pr hpr
              exact ⟨q, hq, by rw [hqe, hpre]⟩
          · intro f hf
            rcases List.mem_append.mp hf with hf | hf
            · exact hif f hf
            · have hfb :
                  (family_branch acc.persons_id_map x n).2 = some f := by
                cases hb : (family_branch acc.persons_id_map x n).2 with
                | none => rw [hb] at hf; cases hf
                | some g =>
                    rw [hb] at hf
                    have : f = g := List.mem_singleton.mp hf
                    rw [this]
              obtain ⟨⟨pr, hpr, hpre⟩, ⟨pr2, hpr2, hpre2⟩⟩ :=
                family_branch_parents hfb
              constructor
              · obtain ⟨q, hq, hqe⟩ := him pr hpr
                exact ⟨q, hq, by rw [hqe, hpre]⟩
              · obtain ⟨q, hq, hqe⟩ := him pr2 hpr2
                exact ⟨q, hq, by rw [hqe, hpre2]⟩
      · next hx =>
          injection h with h
          subst h
          exact ⟨him, hic, hif⟩
  · next t h1 h2 =>
      injection h with h
      subst h
      exact ⟨him, hic, hif⟩

lemma api_fold_integrity :
    ∀ (ns : List GedcomTreeNode) (acc res : ApiAcc),
      api_fold ns acc = some res → acc_integrity acc →
      acc_integrity res := by
  intro ns
  induction ns with
  | nil =>
      intro acc res h hi
      rw [api_fold] at h
      injection h with h
      subst h
      exact hi
  | cons n rest ih =>
      intro acc res h hi
      rw [api_fold] at h
      cases hstep : api_step acc n with
      | none => rw [hstep] at h; exact Option.noConfusion h
      | some acc2 =>
          rw [hstep] at h
          exact ih acc2 res h (api_step_integrity hstep hi)

/-- Claim C4: for every forest that the mapper turns into an output
document, the persons collection is exactly the list of per-root
extracted persons (so a Person is added for an Individual root if and
only if its candidate is accepted, and a rejected candidate is silently
omitted while the rest of the document is processed), and for every
Individual root carrying a cross-reference label the candidate is
accepted exactly when a gender (a Sex child) and a creation timestamp (a
Change child, with every Change child converting) can be derived from
its children — the identifier always derives from the label.  Boundary:
the document whose single Individual root has only a Name child maps to
the output with zero persons. -/
theorem c4_person_acceptance :
    (∀ (nodes : List GedcomTreeNode) (resp : ApiResponse),
        api_response_from_tree nodes = some resp →
        resp.persons = nodes.filterMap node_person ∧
        (∀ node ∈ nodes, node.tag = .Individual → node.xref_id.isSome = true →
          (node_person node).isSome = person_accepted node ∧
          person_accepted node =
            (has_sex_child node && timestamp_derivable node))) ∧
    gedcom_to_relation c4_boundary_doc = .ok (some empty_api_response) := by
  constructor
  · intro nodes resp h
    unfold api_response_from_tree at h
    cases hf : api_fold nodes {} with
    | none => rw [hf] at h; exact Option.noConfusion h
    | some accfin =>
        rw [hf] at h
        injection h with h
        obtain ⟨hp, hmem⟩ := api_fold_persons nodes {} accfin hf
        constructor
        · rw [← h]
          dsimp only
          rw [hp]
          simp
        · intro node hnode htag hx
          have hnp := hmem node hnode htag hx
          obtain ⟨x, hxe⟩ := Option.isSome_iff_exists.mp hx
          exact ⟨node_person_accepted htag hxe,
                 person_accepted_char node x hxe hnp⟩
  · rfl

/-- Witness for C4: on the forest holding the single complete Individual
root `c4_wit_node` the mapper produces `c4_wit_resp`, whose persons are
the extracted persons, and the acceptance condition evaluates as the
derivability condition. -/
theorem c4_person_acceptance_witness :
    api_response_from_tree [c4_wit_node] = some c4_wit_resp ∧
    c4_wit_resp.persons = [c4_wit_node].filterMap node_person ∧
    person_accepted c4_wit_node =
      (has_sex_child c4_wit_node && timestamp_derivable c4_wit_node) := by
  have h := c4_person_acceptance.1 [c4_wit_node] c4_wit_resp rfl
  exact ⟨rfl, h.1, (h.2 c4_wit_node (List.mem_singleton.mpr rfl) rfl rfl).2⟩

/-- Claim C5: for every Family root carrying a label, processed with the
accumulated state `acc`, a Family entity is built exactly when a
creation timestamp (a convertible Change child), a father id (a
resolving Husband child) and a mother id (a resolving Wife child) are
all derived — the identifier always derives from the label; a built
Family reaches the output, and the join rows emitted while scanning the
record reach the output whether or not the Family itself was built
(rows of a dropped family are not retracted).  A Family root without a
label changes nothing. -/
theorem c5_family_acceptance (pre post : List GedcomTreeNode)
    (node : GedcomTreeNode) (resp : ApiResponse) (acc : ApiAcc) (x : String)
    (hresp : api_response_from_tree (pre ++ node :: post) = some resp)
    (hacc : api_fold pre {} = some acc)
    (htag : node.tag = .Family) (hx : node.xref_id = some x) :
    ((family_branch acc.persons_id_map x node).2.isSome =
       (has_ok_change node && husb_resolves acc.persons_id_map node &&
        wife_resolves acc.persons_id_map node)) ∧
    (∀ f, (family_branch acc.persons_id_map x node).2 = some f →
       f ∈ resp.familys) ∧
    (∀ r ∈ (family_branch acc.persons_id_map x node).1, r ∈ resp.childs) ∧
    (∀ (acc' : ApiAcc) (node' : GedcomTreeNode), node'.tag = .Family →
       node'.xref_id = none → api_step acc' node' = some acc') := by
  unfold api_response_from_tree at hresp
  cases hf : api_fold (pre ++ node :: post) ({} : ApiAcc) with
  | none => rw [hf] at hresp; exact Option.noConfusion hresp
  | some accfin =>
      rw [hf] at hresp
      injection hresp with hresp
      rw [api_fold_append pre (node :: post) {} acc hacc] at hf
      rw [api_fold] at hf
      rw [api_step_family acc node x htag hx] at hf
      dsimp only at hf
      obtain ⟨hpext, hcext, hfext⟩ := api_fold_extends post _ accfin hf
      refine ⟨family_branch_isSome acc.persons_id_map x node, ?_, ?_, ?_⟩
      · intro f hfb
        have hmem : f ∈ acc.familys ++
            (family_branch acc.persons_id_map x node).2.toList := by
          rw [hfb]
          exact List.mem_append_right _ (List.mem_singleton.mpr rfl)
        have hin := hfext f hmem
        rw [← hresp]
        exact hin
      · intro r hr
        have hmem : r ∈ acc.childs ++
            (family_branch acc.persons_id_map x node).1 :=
          List.mem_append_right _ hr
        have hin := hcext r hmem
        rw [← hresp]
        exact hin
      · intro acc' node' htag' hx'
        unfold api_step
        rw [htag', hx']

/-- Witness for C5: on `c5_wit_nodes` (one accepted person, then a fully
derivable Family record) the built family is emitted and the join row
lands in the output `c5_wit_resp`. -/
theorem c5_family_acceptance_witness :
    ((family_branch c5_wit_acc.persons_id_map "@F9@" c5_wit_fam_node).2.isSome =
       (has_ok_change c5_wit_fam_node &&
        husb_resolves c5_wit_acc.persons_id_map c5_wit_fam_node &&
        wife_resolves c5_wit_acc.persons_id_map c5_wit_fam_node)) ∧
    (∀ r ∈ (family_branch c5_wit_acc.persons_id_map "@F9@" c5_wit_fam_node).1,
       r ∈ c5_wit_resp.childs) := by
  have h := c5_family_acceptance [c5_wit_ind_node] [] c5_wit_fam_node
    c5_wit_resp c5_wit_acc "@F9@" rfl rfl rfl rfl
  exact ⟨h.1, h.2.2.1⟩

set_option maxRecDepth 16384 in
/-- Counterexample to claim C6: in `c6_doc` one Family record holds the
two Child pointers `@I1@` and `@X1@`, both resolving through the
cross-reference map to registered Persons; yet the output's two Child
join rows are literally identical — their join-row Id fields are both
1001 rather than distinct — because both labels digit-extract to the
numeric id 1. -/
theorem c6_counterexample :
    gedcom_to_relation c6_doc = .ok (some c6_resp) ∧
    c6_resp.childs = [c6_row, c6_row] ∧
    c6_row.family_id = 101 ∧ c6_row.id = 1001 :=
  ⟨rfl, rfl, rfl, rfl⟩

/-- Claim C6 (amended): the join rows of one Family record are exactly
one row per resolving Child pointer, in document order; each row carries
the owning family's generated id and the join-row id
`CHILD_ID_SEED + resolved person id`; hence two rows of the record have
distinct join-row Ids exactly when the resolved person ids are distinct
(two pointers resolving to the same numeric id yield identical rows). -/
theorem c6_amended (m : List (String × Nat)) (x : String)
    (node : GedcomTreeNode) :
    (family_branch m x node).1 =
      node.children.filterMap
        (child_row_of m (FAMILY_ID_SEED + (xref_id_to_numeric_id x).getD 0)) ∧
    (∀ r ∈ (family_branch m x node).1,
       r.family_id = FAMILY_ID_SEED + (xref_id_to_numeric_id x).getD 0 ∧
       r.id = CHILD_ID_SEED + r.child_id) ∧
    (∀ r1 ∈ (family_branch m x node).1, ∀ r2 ∈ (family_branch m x node).1,
       (r1.id = r2.id ↔ r1.child_id = r2.child_id)) := by
  refine ⟨family_branch_rows m x node, ?_, ?_⟩
  · intro r hr
    obtain ⟨h1, h2, _, _, _⟩ := family_branch_row_shape hr
    exact ⟨h1, h2⟩
  · intro r1 h1 r2 h2
    obtain ⟨_, e1, _, _, _⟩ := family_branch_row_shape h1
    obtain ⟨_, e2, _, _, _⟩ := family_branch_row_shape h2
    rw [e1, e2]
    exact ⟨fun h => Nat.add_left_cancel h, fun h => by rw [h]⟩

/-- Witness for C6 (amended): with the map `c6_wit_m` (two labels bound
to the distinct ids 1 and 2) the Family record `c6_wit_node` emits two
rows sharing the family id whose join-row ids differ. -/
theorem c6_amended_witness :
    (family_branch c6_wit_m "@F1@" c6_wit_node).1 =
      [child_new 1 1001 101, child_new 2 1002 101] ∧
    (child_new 1 1001 101).family_id = (child_new 2 1002 101).family_id ∧
    ¬ (child_new 1 1001 101).id = (child_new 2 1002 101).id := by
  obtain ⟨h1, h2, h3⟩ := c6_amended c6_wit_m "@F1@" c6_wit_node
  refine ⟨by decide, rfl, ?_⟩
  intro he
  have hm1 : child_new 1 1001 101 ∈
      (family_branch c6_wit_m "@F1@" c6_wit_node).1 := by decide
  have hm2 : child_new 2 1002 101 ∈
      (family_branch c6_wit_m "@F1@" c6_wit_node).1 := by decide
  have := (h3 _ hm1 _ hm2).mp he
  exact absurd this (by decide)

/-- Claim C10: every output document of the mapper is referentially
intact — each Child join row's ChildId and each Family's FatherId and
MotherId is the Id of some Person in the persons collection, because
pointers are only ever resolved through the map of already-accepted
persons. -/
theorem c10_ref_integrity (nodes : List GedcomTreeNode) (resp : ApiResponse)
    (h : api_response_from_tree nodes = some resp) :
    response_ref_integrity resp = true := by
  unfold api_response_from_tree at h
  cases hf : api_fold nodes {} with
  | none => rw [hf] at h; exact Option.noConfusion h
  | some accfin =>
      rw [hf] at h
      injection h with h
      have hinit : acc_integrity {} :=
        ⟨fun pr hpr => absurd hpr (List.not_mem_nil pr),
         fun c hc => absurd hc (List.not_mem_nil c),
         fun f hfm => absurd hfm (List.not_mem_nil f)⟩
      obtain ⟨him, hic, hif⟩ := api_fold_integrity nodes {} accfin hf hinit
      rw [← h]
      unfold response_ref_integrity
      dsimp only
      rw [Bool.and_eq_true]
      constructor
      · rw [List.all_eq_true]
        intro c hc
        obtain ⟨q, hq, hqe⟩ := hic c hc
        rw [List.any_eq_true]
        exact ⟨q, hq, beq_iff_eq.mpr hqe⟩
      · rw [List.all_eq_true]
        intro f hfm
        obtain ⟨⟨q, hq, hqe⟩, ⟨q2, hq2, hqe2⟩⟩ := hif f hfm
        rw [Bool.and_eq_true]
        constructor
        · rw [List.any_eq_true]
          exact ⟨q, hq, beq_iff_eq.mpr hqe⟩
        · rw [List.any_eq_true]
          exact ⟨q2, hq2, beq_iff_eq.mpr hqe2⟩

set_option maxRecDepth 16384 in
/-- Witness for C10: the pipeline maps `c10_doc` to `c10_resp`, and the
referential-integrity checker accepts that output. -/
theorem c10_ref_integrity_witness :
    gedcom_to_relation c10_doc = .ok (some c10_resp) ∧
    response_ref_integrity c10_resp = true :=
  ⟨rfl, c10_ref_integrity c10_nodes c10_resp rfl⟩

end Gedcom
